import Mathlib

/-!
# Verification of the `orderbook` matching engine core

Shallow embedding of `src/OrderBook.h` (classes `Order`, `OrderMinMaxHeap`,
`OrderEntry`, `OrderBook`) and of the driver's dispatch, together with
theorems settling the frozen claims C1..C10.

Modelling conventions, chosen once and used throughout:

* `price_t` is a C `float`; every concrete input used below carries a small
  integer-valued price, on which IEEE single arithmetic is exact, so prices
  are embedded as `Int` (the spec itself mandates a scaled integer).
* `quantity_t` is `uint64_t`; quantities stay far below `2 ^ 64` in every
  state considered here, so they are embedded as `Nat` with conversions made
  explicit where the C code mixes them with signed/float arithmetic.
* `time_t` is signed (the code uses `-1` as the "now" sentinel), embedded as
  `Int`.
* Heap storage `Order data[...]`/`bool allocated[...]` is embedded as total
  functions `Nat → Order` / `Nat → Bool`; the C arrays are fully initialised
  by the constructor, and an out-of-bounds C access is flagged explicitly
  (`Option`/dedicated constructors) wherever a trace can reach one.
* C loops whose only exit in the source is 32-bit signed overflow are given
  the fuel that overflow bounds them by, with the wrap made explicit.
-/

/-- `enum error_status` (values as in the source). -/
def ACCEPT : Nat := 0

def INVALID_AMMENDMENT_DETAILS : Nat := 101

def INVALID_ORDER_DETAILS : Nat := 303

def ORDER_DOES_NOT_EXIST : Nat := 404

/-- `enum action`. -/
inductive action_t where
  | NEW
  | AMEND
  | CANCEL
  | MATCH
  | QUERY
  deriving DecidableEq, Repr

/-- `enum order_type`. -/
inductive order_type_t where
  | MARKET
  | LIMIT
  | IOC
  deriving DecidableEq, Repr

/-- `enum side`. -/
inductive side_t where
  | BUY
  | SELL
  deriving DecidableEq, Repr

/-- `enum execution_status_t`. -/
inductive execution_status_t where
  | NOT_EXECUTED
  | PARTIALLY_EXECUTED
  | EXECUTED
  | CANCELLED
  deriving DecidableEq, Repr

/-- `struct alteration_history_t`; the `next_update` pointer becomes the
list linkage of `Order.history`. -/
structure alteration_history_t where
  history : execution_status_t
  date : Int
  price : Int
  quantity_remaining : Nat
  deriving DecidableEq, Repr

/-- `class Order`: an id, a type and the linked list of history records,
head = oldest (the constructor's record). -/
structure Order where
  order_id : Nat
  order_type : order_type_t
  history : List alteration_history_t
  deriving DecidableEq, Repr

/-- `Order::Order(oid, ot, t, p, q)`: history starts as the single record
`(NOT_EXECUTED, t, p, q)`. -/
def Order.create (oid : Nat) (ot : order_type_t) (t : Int) (p : Int) (q : Nat) : Order :=
  ⟨oid, ot, [⟨.NOT_EXECUTED, t, p, q⟩]⟩

/-- `Order::Order()`: the default constructor delegates with all zeroes
(`(order_type_t) 0` is `MARKET`). -/
def Order.default_order : Order :=
  Order.create 0 .MARKET 0 0 0

/-- The loop body of `Order::get_history_entry`: walk `next_update` links,
remembering the last record whose `date ≤ t` (or every record when
`t = -1`), stopping at the first record with `date > t`. -/
def getHistoryEntryLoop (t : Int) : alteration_history_t → List alteration_history_t →
    alteration_history_t
  | cur, [] => cur
  | cur, e :: rest => if t = -1 ∨ e.date ≤ t then getHistoryEntryLoop t e rest else cur

/-- `Order::get_history_entry(t)`. `most_recent` starts at the list head, so
the head is returned even when its date exceeds `t`. The `[]` case is
unreachable: every constructed `Order` has nonempty history. -/
def Order.get_history_entry (o : Order) (t : Int) : alteration_history_t :=
  match o.history with
  | [] => ⟨.NOT_EXECUTED, 0, 0, 0⟩
  | h :: rest => getHistoryEntryLoop t h (h :: rest)

/-- `Order::get_status(t)`. -/
def Order.get_status (o : Order) (t : Int) : execution_status_t :=
  (o.get_history_entry t).history

/-- `Order::get_price(t)`. -/
def Order.get_price (o : Order) (t : Int) : Int :=
  (o.get_history_entry t).price

/-- `Order::get_quantity(t)`. -/
def Order.get_quantity (o : Order) (t : Int) : Nat :=
  (o.get_history_entry t).quantity_remaining

/-- `Order::get_timestamp(t)`. -/
def Order.get_timestamp (o : Order) (t : Int) : Int :=
  (o.get_history_entry t).date

/-- The head record's date, `history->date` in the source (`0` for the
unreachable empty history). -/
def Order.head_date (o : Order) : Int :=
  match o.history with
  | [] => 0
  | h :: _ => h.date

/-- `Order::active_at(t)`: note the source tests the *head* record's date
(`history->date`) but the status of the record in force at `t`. -/
def Order.active_at (o : Order) (t : Int) : Bool :=
  let status := (o.get_history_entry t).history
  decide (t = -1 ∨ o.head_date ≤ t) && !(status = .EXECUTED) && !(status = .CANCELLED)

/-- `Order::add_execution_history_entry`: append the new record after the
current last record unless that record's date exceeds the new one (in which
case the new record is discarded). Always returns `ACCEPT` in the source. -/
def Order.add_execution_history_entry (o : Order) (st : execution_status_t) (date : Int)
    (price : Int) (quantity_remaining : Nat) : Order :=
  let history_entry := o.get_history_entry (-1)
  if history_entry.date > date then o
  else { o with history := o.history ++ [⟨st, date, price, quantity_remaining⟩] }

/-- `Order::transact(date, new_price, new_quantity)`: status is `EXECUTED`
iff the new quantity is zero, else `PARTIALLY_EXECUTED`. -/
def Order.transact (o : Order) (date : Int) (new_price : Int) (new_quantity : Nat) : Order :=
  let status : execution_status_t :=
    if new_quantity = 0 then .EXECUTED else .PARTIALLY_EXECUTED
  o.add_execution_history_entry status date new_price new_quantity

/-- `Order::ammend(new_price, new_quantity)`: append a record carrying the
current status and date but the new price and quantity. -/
def Order.ammend (o : Order) (new_price : Int) (new_quantity : Nat) : Order :=
  let history_entry := o.get_history_entry (-1)
  o.add_execution_history_entry history_entry.history history_entry.date new_price new_quantity

/-! ## The min-max heap `OrderMinMaxHeap` -/

/-- `enum order_heap_type_t`. -/
inductive order_heap_type_t where
  | BUY_HEAP
  | SELL_HEAP
  deriving DecidableEq, Repr

/-- `MAX_NUM_ORDERS_IN_HEAP`. -/
def MAX_NUM_ORDERS_IN_HEAP : Nat := 2 ^ 16

/-- Pointwise function update on `Nat`-indexed storage (assignment to a C
array cell). -/
def upd {α : Type} (f : Nat → α) (i : Nat) (v : α) : Nat → α :=
  fun j => if j = i then v else f j

/-- `class OrderMinMaxHeap` state: `data` and `allocated` are the two
arrays, `active`/`matched` the offsets `active_ptr - data` and
`matched_ptr - data`. -/
structure OrderMinMaxHeap where
  data : Nat → Order
  allocated : Nat → Bool
  active : Nat
  matched : Nat
  heap_type : order_heap_type_t

/-- `OrderMinMaxHeap::OrderMinMaxHeap(type)`: every cell default
constructed, nothing allocated, both cursors at the start. -/
def OrderMinMaxHeap.create (ht : order_heap_type_t) : OrderMinMaxHeap :=
  ⟨fun _ => Order.default_order, fun _ => false, 0, 0, ht⟩

/-- `OrderMinMaxHeap::swap(a, b)` (on `data` only; `allocated` is *not*
swapped, exactly as in the source). -/
def OrderMinMaxHeap.swap (h : OrderMinMaxHeap) (a b : Nat) : OrderMinMaxHeap :=
  let temp := h.data a
  { h with data := upd (upd h.data a (h.data b)) b temp }

/-- `OrderMinMaxHeap::has_precedence(a, b, t)` on orders. The source
function `return`s `a.get_price(t) < b.get_price(t)` on its first line;
the side-aware comparison with the timestamp tie-break that follows it is
unreachable dead code and is therefore not part of the embedding. -/
def hasPrecedenceO (a b : Order) (t : Int) : Bool :=
  decide (a.get_price t < b.get_price t)

/-- `OrderMinMaxHeap::has_precedence(a, b, t)` on indices. -/
def OrderMinMaxHeap.has_precedence (h : OrderMinMaxHeap) (a b : Nat) (t : Int) : Bool :=
  hasPrecedenceO (h.data a) (h.data b) t

/-- `OrderMinMaxHeap::has_children(a)`: the source reads
`allocated[a << 1] || allocated[a << 1 + 1]`, and `a << 1 + 1` parses as
`a << 2`, so the cells probed are `2 * a` and `4 * a`. -/
def OrderMinMaxHeap.has_children (h : OrderMinMaxHeap) (a : Nat) : Bool :=
  h.allocated (2 * a) || h.allocated (4 * a)

/-- `OrderMinMaxHeap::get_parent(m)`: the source doubles (`m << 1`) instead
of halving. -/
def get_parent (m : Nat) : Nat :=
  2 * m

/-- Access helpers for the `int`-typed indices of the `push_down` loops: a
negative C index would be an out-of-bounds read; the constructor initialises
the whole array, and no trace below reaches a negative index, so negative
reads are given the array's default content. -/
def OrderMinMaxHeap.dataI (h : OrderMinMaxHeap) (i : Int) : Order :=
  if i < 0 then Order.default_order else h.data i.toNat

/-- `allocated` read at an `int` index (see `dataI`). -/
def OrderMinMaxHeap.allocatedI (h : OrderMinMaxHeap) (i : Int) : Bool :=
  if i < 0 then false else h.allocated i.toNat

/-- `has_children` at an `int` index. -/
def OrderMinMaxHeap.has_childrenI (h : OrderMinMaxHeap) (a : Int) : Bool :=
  h.allocatedI (2 * a) || h.allocatedI (4 * a)

/-- `has_precedence` at `int` indices. -/
def OrderMinMaxHeap.has_precedenceI (h : OrderMinMaxHeap) (a b : Int) (t : Int) : Bool :=
  hasPrecedenceO (h.dataI a) (h.dataI b) t

/-- `swap` at `int` indices. -/
def OrderMinMaxHeap.swapI (h : OrderMinMaxHeap) (a b : Int) : OrderMinMaxHeap :=
  h.swap a.toNat b.toNat

/-- `OrderMinMaxHeap::smallest_descendant(a)`: despite the name the source
returns a *price*, truncated to `int` (exact on the integer-valued prices
used here), reading the `a << 1` cell in both branches, or `-1` when
neither probed cell is allocated. -/
def OrderMinMaxHeap.smallest_descendant (h : OrderMinMaxHeap) (a : Int) : Int :=
  let m1 : Int := if h.allocatedI (2 * a) then (h.dataI (2 * a)).get_price (-1) else -1
  if h.allocatedI (4 * a) then
    if m1 = -1 ∨ (h.dataI (2 * a)).get_price (-1) < m1 then (h.dataI (2 * a)).get_price (-1)
    else m1
  else m1

/-- 32-bit two's-complement wrap of an `int` value. -/
def int32wrap (x : Int) : Int :=
  (x + 2 ^ 31) % 2 ^ 32 - 2 ^ 31

/-- `OrderMinMaxHeap::is_grandchild_of(a, b)`: the loop
`for (i = a; i > b; i = i << 1) result = true;` sets `result` iff it is
entered, and only exits again through 32-bit overflow of `i`; 64 doublings
always reach the wrap for the in-range indices the code passes. -/
def is_grandchild_go : Nat → Int → Int → Bool → Bool
  | 0, _, _, r => r
  | fuel + 1, i, b, r => if i > b then is_grandchild_go fuel (int32wrap (2 * i)) b true else r

/-- `OrderMinMaxHeap::is_grandchild_of(a, b)`. -/
def is_grandchild_of (a b : Int) : Bool :=
  is_grandchild_go 64 a b false

/-- The loop of `OrderMinMaxHeap::push_down_min(m)`:
`for (i = m, mi = m; has_children(mi); i = mi, mi = smallest_descendant(mi))`
with the body's conditional swaps and `break`. `m` is the original argument
(used by the inner parent swap). The loop is fueled; its body `break`s on
the first iteration whenever `mi = i` (see `push_down_eq`), so the fuel is
never the exit taken on a reachable state. -/
def push_down_min_go (m : Int) : Nat → OrderMinMaxHeap → Int → Int → OrderMinMaxHeap
  | 0, h, _, _ => h
  | fuel + 1, h, i, mi =>
    if h.has_childrenI mi then
      if h.has_precedenceI mi i (-1) then
        if is_grandchild_of mi i then
          let h1 := h.swapI mi i
          let h2 :=
            if h1.has_precedenceI m (2 * m) (-1) then h1.swapI m (2 * m) else h1
          push_down_min_go m fuel h2 mi (h2.smallest_descendant mi)
        else
          let h2 := h.swapI m i
          push_down_min_go m fuel h2 mi (h2.smallest_descendant mi)
      else h
    else h

/-- `OrderMinMaxHeap::push_down_min(m)`. -/
def OrderMinMaxHeap.push_down_min (h : OrderMinMaxHeap) (m : Nat) : OrderMinMaxHeap :=
  push_down_min_go (m : Int) 64 h (m : Int) (m : Int)

/-- The loop of `OrderMinMaxHeap::push_down_max(m)`: same shape as
`push_down_min_go` with the precedence tests negated. -/
def push_down_max_go (m : Int) : Nat → OrderMinMaxHeap → Int → Int → OrderMinMaxHeap
  | 0, h, _, _ => h
  | fuel + 1, h, i, mi =>
    if h.has_childrenI mi then
      if !h.has_precedenceI mi i (-1) then
        if is_grandchild_of mi i then
          let h1 := h.swapI mi i
          let h2 :=
            if !h1.has_precedenceI m (2 * m) (-1) then h1.swapI m (2 * m) else h1
          push_down_max_go m fuel h2 mi (h2.smallest_descendant mi)
        else
          let h2 := h.swapI m i
          push_down_max_go m fuel h2 mi (h2.smallest_descendant mi)
      else h
    else h

/-- `OrderMinMaxHeap::push_down_max(m)`. -/
def OrderMinMaxHeap.push_down_max (h : OrderMinMaxHeap) (m : Nat) : OrderMinMaxHeap :=
  push_down_max_go (m : Int) 64 h (m : Int) (m : Int)

/-- `OrderMinMaxHeap::push_down(m)`: despite the comment in the source the
branch test is `has_children(m)`. -/
def OrderMinMaxHeap.push_down (h : OrderMinMaxHeap) (m : Nat) : OrderMinMaxHeap :=
  if h.has_children m then h.push_down_min m else h.push_down_max m

/-- The loop of `OrderMinMaxHeap::push_up_min(m)`:
`for (i = m; (i << 2) >= 0 && has_precedence(i, i << 2); i <<= 2)` with
`swap(i, i << 2)` as body. `i << 2` is a 32-bit `int`: the loop also stops
when the shift wraps negative; starting from any in-range index the wrap is
reached within 32 iterations, so fuel 64 is exact. -/
def push_up_min_go : Nat → OrderMinMaxHeap → Nat → OrderMinMaxHeap
  | 0, h, _ => h
  | fuel + 1, h, i =>
    let j := 4 * i % 2 ^ 32
    if j < 2 ^ 31 && h.has_precedence i j (-1) then
      push_up_min_go fuel (h.swap i j) j
    else h

/-- `OrderMinMaxHeap::push_up_min(m)`. -/
def OrderMinMaxHeap.push_up_min (h : OrderMinMaxHeap) (m : Nat) : OrderMinMaxHeap :=
  push_up_min_go 64 h m

/-- The loop of `OrderMinMaxHeap::push_up_max(m)`: as `push_up_min_go` with
the precedence test negated. -/
def push_up_max_go : Nat → OrderMinMaxHeap → Nat → OrderMinMaxHeap
  | 0, h, _ => h
  | fuel + 1, h, i =>
    let j := 4 * i % 2 ^ 32
    if j < 2 ^ 31 && !h.has_precedence i j (-1) then
      push_up_max_go fuel (h.swap i j) j
    else h

/-- `OrderMinMaxHeap::push_up_max(m)`. -/
def OrderMinMaxHeap.push_up_max (h : OrderMinMaxHeap) (m : Nat) : OrderMinMaxHeap :=
  push_up_max_go 64 h m

/-- `OrderMinMaxHeap::push_up(i)`. -/
def OrderMinMaxHeap.push_up (h : OrderMinMaxHeap) (i : Nat) : OrderMinMaxHeap :=
  if i ≠ 0 then
    if !h.has_children i then
      if h.has_precedence i (get_parent i) (-1) then
        (h.swap i (get_parent i)).push_up_max (get_parent i)
      else h.push_up_min i
    else
      if h.has_precedence i (get_parent i) (-1) then
        (h.swap i (get_parent i)).push_up_min (get_parent i)
      else h.push_up_max i
  else h

/-- The scan of `OrderMinMaxHeap::search(id)`: `remaining` counts the cells
left before `matched_ptr` (the loop `d < matched_ptr` re-indexed so the
recursion is structural), `i` is the current cell; the first allocated cell
carrying the id wins, else `-1` (modelled as `none`). -/
def searchGo (h : OrderMinMaxHeap) (id_ : Nat) : Nat → Nat → Option Nat
  | 0, _ => none
  | remaining + 1, i =>
    if h.allocated i && (h.data i).order_id == id_ then some i
    else searchGo h id_ remaining (i + 1)

/-- `OrderMinMaxHeap::search(id)`. -/
def OrderMinMaxHeap.search (h : OrderMinMaxHeap) (id_ : Nat) : Option Nat :=
  searchGo h id_ h.matched 0

/-- `OrderMinMaxHeap::make_inactive(i)`: swap with the last active cell,
deallocate it, shrink the active region, re-heapify from the root.
(`matched` is left alone, so the cell stays in the retained region.) -/
def OrderMinMaxHeap.make_inactive (h : OrderMinMaxHeap) (i : Nat) : OrderMinMaxHeap :=
  let h1 := h.swap i (h.active - 1)
  let h2 := { h1 with allocated := upd h1.allocated (h.active - 1) false, active := h.active - 1 }
  h2.push_down 0

/-- `OrderMinMaxHeap::insert(datum)`: swap the first inactive cell out to
the free region, write the new order at `active`, allocate it, sift up,
advance both cursors. Always returns `true` in the source (no capacity
check). -/
def OrderMinMaxHeap.insert (h : OrderMinMaxHeap) (datum : Order) : OrderMinMaxHeap :=
  let h1 := h.swap h.active h.matched
  let h2 := { h1 with data := upd h1.data h.active datum,
                      allocated := upd h1.allocated h.active true }
  let h3 := h2.push_up h.active
  { h3 with active := h.active + 1, matched := h.matched + 1 }

/-- `OrderMinMaxHeap::ammend(id, new_price, new_quantity)`: on a hit the
order is amended *and then* a second identical record is appended via
`add_execution_history_entry`, followed by `push_down(0)`; on a miss the
status is `ORDER_DOES_NOT_EXIST`. -/
def OrderMinMaxHeap.ammend (h : OrderMinMaxHeap) (id_ : Nat) (new_price : Int)
    (new_quantity : Nat) : OrderMinMaxHeap × Nat :=
  match h.search id_ with
  | some i =>
    let o1 := (h.data i).ammend new_price new_quantity
    let o2 := o1.add_execution_history_entry (o1.get_history_entry (-1)).history
      (o1.get_timestamp (-1)) new_price new_quantity
    let h1 := { h with data := upd h.data i o2 }
    (h1.push_down 0, ACCEPT)
  | none => (h, ORDER_DOES_NOT_EXIST)

/-- `OrderMinMaxHeap::cancel(id)`: on a hit append a `CANCELLED` record at
the current date/price/quantity, make the cell inactive, `push_down(0)`. -/
def OrderMinMaxHeap.cancel (h : OrderMinMaxHeap) (id_ : Nat) : OrderMinMaxHeap × Nat :=
  match h.search id_ with
  | some i =>
    let o := h.data i
    let o1 := o.add_execution_history_entry .CANCELLED (o.get_timestamp (-1))
      (o.get_price (-1)) (o.get_quantity (-1))
    let h1 := { h with data := upd h.data i o1 }
    let h2 := h1.make_inactive i
    (h2.push_down 0, ACCEPT)
  | none => (h, ORDER_DOES_NOT_EXIST)

/-- `OrderMinMaxHeap::get_max_order()`: NULL on an unallocated root, else
one of the first three cells picked by the (price-ascending) precedence
tests, with the parenthesisation of the source:
`!allocated[1] || (has_precedence(0,1) && (!allocated[2] || has_precedence(0,2)))`. -/
def OrderMinMaxHeap.get_max_order (h : OrderMinMaxHeap) : Option Order :=
  if !h.allocated 0 then none
  else if !h.allocated 1 || (h.has_precedence 0 1 (-1) &&
      (!h.allocated 2 || h.has_precedence 0 2 (-1))) then some (h.data 0)
  else if !h.allocated 2 || h.has_precedence 1 2 (-1) then some (h.data 1)
  else some (h.data 2)

/-- `OrderMinMaxHeap::get_min_order()`: the source returns the raw `data`
pointer, which is never NULL — even on an empty heap the (default) root
order is returned. -/
def OrderMinMaxHeap.get_min_order (h : OrderMinMaxHeap) : Order :=
  h.data 0

/-- `OrderMinMaxHeap::transact(local_id, deduction, t)`: the order found by
`search` has `deduction` (a *price*, passed by the match loop) subtracted
from its quantity in C `int` arithmetic; non-positive results fully execute
and deactivate the order. A failed `search` makes the source dereference
`data - 1` (out of bounds): modelled as `none`. -/
def OrderMinMaxHeap.transact (h : OrderMinMaxHeap) (local_id : Nat) (deduction : Int)
    (t : Int) : Option OrderMinMaxHeap :=
  match h.search local_id with
  | none => none
  | some local_i =>
    let local_o := h.data local_i
    let abs_diff : Int := (local_o.get_quantity t : Int) - deduction
    if abs_diff ≤ 0 then
      let o1 := local_o.transact t (local_o.get_price t) 0
      let h1 := { h with data := upd h.data local_i o1 }
      some (h1.make_inactive local_i)
    else
      let o1 := local_o.transact t (local_o.get_price t)
        ((local_o.get_quantity t : Int) - deduction).toNat
      some { h with data := upd h.data local_i o1 }

/-! ### `get_max_n_orders` (the top-N scan used by `query`) -/

/-- The insertion loop of `OrderMinMaxHeap::get_max_n_orders`
(`for (; a <= stack + stack_i; )`): copy `stack` cells into `t_stack` until
the insertion point for `d`, then place `d`, bump `stack_i` and `break`.
Returns the updated `(t_stack, stack_i, a, b)` cursor tuple. `fuel` counts
the loop steps left (`a` advances every non-break step, so the caller's
`stack_i + 1` steps are exact). -/
def gmnoInsertLoop (d : Order) (t : Int) (stack : Nat → Order) (n : Nat) :
    Nat → Nat → Nat → Nat → (Nat → Order) → (Nat → Order) × Nat × Nat × Nat
  | 0, stack_i, a, b, t_stack => (t_stack, stack_i, a, b)
  | fuel + 1, stack_i, a, b, t_stack =>
    if a ≤ stack_i then
      if (a == stack_i && decide (stack_i < n)) || hasPrecedenceO d (stack a) t then
        (upd t_stack b d, stack_i + 1, a, b + 1)
      else gmnoInsertLoop d t stack n fuel stack_i (a + 1) (b + 1) (upd t_stack b (stack a))
    else (t_stack, stack_i, a, b)

/-- The tail-copy loop (`for (; b < t_stack + stack_i; )`); `b` advances
every step, so `stack_i` steps of fuel are exact. -/
def gmnoCopyLoop (stack : Nat → Order) (stack_i : Nat) :
    Nat → Nat → Nat → (Nat → Order) → (Nat → Order)
  | 0, _, _, t_stack => t_stack
  | fuel + 1, a, b, t_stack =>
    if b < stack_i then gmnoCopyLoop stack stack_i fuel (a + 1) (b + 1) (upd t_stack b (stack a))
    else t_stack

/-- The outer sweep of `get_max_n_orders` over `data[0..matched)` (the cell
index `d` advances every step, so `matched` steps of fuel are exact). Note
the copy-back loop in the source sits *outside* the insertion `if`: an
active order that fails the entry test still copies the freshly
default-initialised `t_stack` over `stack[0..stack_i)`. -/
def gmnoOuter (h : OrderMinMaxHeap) (t : Int) (n : Nat) :
    Nat → Nat → (Nat → Order) → Nat → (Nat → Order) × Nat
  | 0, _, stack, stack_i => (stack, stack_i)
  | fuel + 1, d, stack, stack_i =>
    if !(h.data d).active_at t then gmnoOuter h t n fuel (d + 1) stack stack_i
    else
      let t_stack0 : Nat → Order := fun _ => Order.default_order
      if decide (stack_i < n) || hasPrecedenceO (stack (n - 1)) (h.data d) t then
        let r := gmnoInsertLoop (h.data d) t stack n (stack_i + 1) stack_i 0 0 t_stack0
        let t_stack2 := gmnoCopyLoop stack r.2.1 r.2.1 r.2.2.1 r.2.2.2 r.1
        let stack1 : Nat → Order := fun j => if j < r.2.1 then t_stack2 j else stack j
        gmnoOuter h t n fuel (d + 1) stack1 r.2.1
      else
        let stack1 : Nat → Order := fun j => if j < stack_i then t_stack0 j else stack j
        gmnoOuter h t n fuel (d + 1) stack1 stack_i

/-- `OrderMinMaxHeap::get_max_n_orders(t, output, n)`: the filled output
buffer (as a total function, cells beyond the returned count untouched) and
the returned count. -/
def OrderMinMaxHeap.get_max_n_orders (h : OrderMinMaxHeap) (t : Int) (n : Nat) :
    (Nat → Order) × Nat :=
  gmnoOuter h t n h.matched 0 (fun _ => Order.default_order) 0

/-! ## `OrderEntry` (one symbol: a buy heap and a sell heap) -/

/-- `class OrderEntry`. The `next_entry` pointer is omitted: no code path
ever sets it (the constructor NULLs it and `OrderBook::insert` overwrites
the bucket head), so every chain has length at most one. -/
structure OrderEntry where
  symbol : String
  buys : OrderMinMaxHeap
  sells : OrderMinMaxHeap

/-- `OrderEntry::OrderEntry(s)`. -/
def OrderEntry.create (s : String) : OrderEntry :=
  ⟨s, OrderMinMaxHeap.create .BUY_HEAP, OrderMinMaxHeap.create .SELL_HEAP⟩

/-- `OrderEntry::add(o, s)` (always returns `true`). -/
def OrderEntry.add (e : OrderEntry) (o : Order) (s : side_t) : OrderEntry :=
  match s with
  | .BUY => { e with buys := e.buys.insert o }
  | .SELL => { e with sells := e.sells.insert o }

/-- `OrderEntry::ammend(s, oid, p, q)`: routes to the side heap and
*discards* its status, returning the C `bool` `true` (which converts to
`int` `1` at the `OrderBook::ammend_order` call site). -/
def OrderEntry.ammend (e : OrderEntry) (s : side_t) (oid : Nat) (p : Int) (q : Nat) :
    OrderEntry × Bool :=
  match s with
  | .BUY => ({ e with buys := (e.buys.ammend oid p q).1 }, true)
  | .SELL => ({ e with sells := (e.sells.ammend oid p q).1 }, true)

/-- `OrderEntry::cancel(oid, s)`: routes to the side heap, *discards* its
status (`ORDER_DOES_NOT_EXIST` included) and returns `ACCEPT`
unconditionally. -/
def OrderEntry.cancel (e : OrderEntry) (oid : Nat) (s : side_t) : OrderEntry × Nat :=
  match s with
  | .BUY => ({ e with buys := (e.buys.cancel oid).1 }, ACCEPT)
  | .SELL => ({ e with sells := (e.sells.cancel oid).1 }, ACCEPT)

/-- One trade line printed by `OrderEntry::match` (fields in print order). -/
structure TradeRow where
  symbol : String
  b_oi : Nat
  b_t : order_type_t
  b_quantity : Nat
  b_price : Int
  s_price : Int
  s_quantity : Nat
  s_t : order_type_t
  s_oi : Nat
  deriving DecidableEq, Repr

/-- Outcome of one iteration of the `while (true)` loop of
`OrderEntry::match`. -/
inductive MatchStepResult where
  | halt
  | oob
  | traded (row : TradeRow) (e : OrderEntry)

/-- One iteration of `OrderEntry::match(t)`. The `!best_buy || !best_sell`
test can only fire for the buy side: `get_min_order` returns the raw `data`
pointer, which is never NULL. On a cross the source emits the trade line and
calls `transact` on both heaps **with the buy price as the quantity
deduction** (`buys->transact(b_oi, b_price, t)` and
`sells->transact(s_oi, b_price, t)`). -/
def OrderEntry.match_step (e : OrderEntry) (t : Int) : MatchStepResult :=
  match e.buys.get_max_order with
  | none => .halt
  | some best_buy =>
    let best_sell := e.sells.get_min_order
    let b_price := best_buy.get_price (-1)
    let b_oi := best_buy.order_id
    let b_quantity := best_buy.get_quantity (-1)
    let b_t := best_buy.order_type
    let s_price := best_sell.get_price (-1)
    let s_oi := best_sell.order_id
    let s_quantity := best_sell.get_quantity (-1)
    let s_t := best_sell.order_type
    if (best_buy.get_history_entry (-1)).history ≠ .EXECUTED ∧
        (best_sell.get_history_entry (-1)).history ≠ .EXECUTED ∧ s_price ≤ b_price then
      let row : TradeRow := ⟨e.symbol, b_oi, b_t, b_quantity, b_price, s_price, s_quantity,
        s_t, s_oi⟩
      match e.buys.transact b_oi b_price t with
      | none => .oob
      | some bh =>
        match e.sells.transact s_oi b_price t with
        | none => .oob
        | some sh => .traded row { e with buys := bh, sells := sh }
    else .halt

/-- Outcome of running `OrderEntry::match(t)` under a fuel bound. -/
inductive MatchResult where
  | finished (trades : List TradeRow) (e : OrderEntry)
  | oob
  | fuelOut

/-- The `while (true)` loop of `OrderEntry::match(t)`, fuel-indexed: the C
loop has no iteration bound, so termination on a given state means some
fuel returns `finished`. -/
def OrderEntry.match_run : Nat → OrderEntry → Int → MatchResult
  | 0, _, _ => .fuelOut
  | fuel + 1, e, t =>
    match e.match_step t with
    | .halt => .finished [] e
    | .oob => .oob
    | .traded row e1 =>
      match OrderEntry.match_run fuel e1 t with
      | .finished rows e2 => .finished (row :: rows) e2
      | r => r

/-- One line printed by `OrderEntry::query` (symbol, optional buy cell
`id, type, qty, price`, optional sell cell `price, qty, type, id`). -/
structure QueryRow where
  symbol : String
  buy : Option (Nat × order_type_t × Nat × Int)
  sell : Option (Int × Nat × order_type_t × Nat)
  deriving DecidableEq, Repr

/-- `OrderEntry::query(t)`: the top five of each side, printed over
`max(num_buys, num_sells)` rows. -/
def OrderEntry.query (e : OrderEntry) (t : Int) : List QueryRow :=
  let rb := e.buys.get_max_n_orders t 5
  let rs := e.sells.get_max_n_orders t 5
  let num_to_display := if rb.2 > rs.2 then rb.2 else rs.2
  (List.range num_to_display).map fun i =>
    { symbol := e.symbol
      buy := if i < rb.2 then
          some ((rb.1 i).order_id, (rb.1 i).order_type, (rb.1 i).get_quantity t,
            (rb.1 i).get_price t)
        else none
      sell := if i < rs.2 then
          some ((rs.1 i).get_price t, (rs.1 i).get_quantity t, (rs.1 i).order_type,
            (rs.1 i).order_id)
        else none }

/-! ## `OrderBook` (the engine) -/

/-- `enum command_format_t`. -/
inductive command_format_t where
  | F_NEW
  | F_AMMEND
  | F_MATCH_TIMESTAMP
  | F_MATCH_TIMESTAMP_SYMBOL
  | F_QUERY
  | F_QUERY_SYMBOL
  | F_QUERY_TIMESTAMP
  | F_QUERY_TIMESTAMP_SYMBOL
  | F_QUERY_SYMBOL_TIMESTAMP
  deriving DecidableEq, Repr

/-- `class Command`. -/
structure Command where
  format : command_format_t
  order_action : action_t
  order_id : Nat
  timestamp : Int
  symbol : String
  side : side_t
  order_type : order_type_t
  price : Int
  quantity : Nat
  deriving DecidableEq, Repr

/-- `struct hash_order_to_symbol`; the `next` pointer becomes the list
linkage of the cache bucket. -/
structure hash_order_to_symbol where
  oi : Nat
  symbol : String
  deriving DecidableEq, Repr

/-- `NUM_TOTAL_SYMBOLS_IN_ORDER_BOOK`. -/
def NUM_TOTAL_SYMBOLS_IN_ORDER_BOOK : Nat := 2 ^ 16

/-- `OrderBook::hash(unsigned int x)`: `unsigned` arithmetic reduced mod the
table size (the intermediate mod `2 ^ 32` is absorbed because the table size
divides it). -/
def hashUInt (x : Nat) : Nat :=
  (1279 * x + 2203) % NUM_TOTAL_SYMBOLS_IN_ORDER_BOOK

/-- The accumulation loop of `OrderBook::hash(char* x)`:
`int_repr = int_repr * 26 + (*xi - 'a')` in `unsigned int` arithmetic
(uppercase input makes `*xi - 'a'` negative, wrapping mod `2 ^ 32`). -/
def hashStrRepr : Nat → List Char → Nat
  | acc, [] => acc
  | acc, c :: rest => hashStrRepr ((acc * 26 + (c.toNat + 2 ^ 32 - 97)) % 2 ^ 32) rest

/-- `OrderBook::hash(char* x)`. -/
def hashStr (s : String) : Nat :=
  hashUInt (hashStrRepr 0 s.data)

/-- The `(unsigned int)` cast of a 64-bit order id used at the
`hash((unsigned int) o.order_id)` call sites. -/
def hash_id (id_ : Nat) : Nat :=
  hashUInt (id_ % 2 ^ 32)

/-- C `strcmp` on NUL-terminated strings (only its sign is ever used). -/
def c_strcmp : List Char → List Char → Int
  | [], [] => 0
  | [], c :: _ => -(c.toNat : Int)
  | c :: _, [] => (c.toNat : Int)
  | a :: as, b :: bs => if a = b then c_strcmp as bs else (a.toNat : Int) - (b.toNat : Int)

/-- `strcmp` on the embedded strings. -/
def strcmpS (a b : String) : Int :=
  c_strcmp a.data b.data

/-- The traversal of `OrderBook::insert`'s sorted-list branch:
`while (snl->next != NULL && strcmp(snl->symbol, key) < 0) snl = snl->next;`
then link `key` in *after* `snl`. The advance test reads the **current**
node, not the next one. -/
def snlInsertAfter (key : String) : List String → List String
  | [] => []
  | [x] => [x, key]
  | x :: y :: rest =>
    if strcmpS x key < 0 then x :: snlInsertAfter key (y :: rest)
    else x :: key :: y :: rest

/-- `class OrderBook` state: the symbol hash table (one entry per bucket,
see `OrderEntry`), the engine timestamp, the order-id → symbol cache and
the sorted symbol-name list. -/
structure OrderBook where
  table : Nat → Option OrderEntry
  timestamp : Int
  cache_order_to_symbol : Nat → List hash_order_to_symbol
  cache_list_sorted_symbol_names : List String

/-- `OrderBook::OrderBook()`. -/
def OrderBook.init : OrderBook :=
  ⟨fun _ => none, 0, fun _ => [], []⟩

/-- `OrderBook::insert(key)`: overwrite the bucket with a fresh entry (any
previous entry in the bucket is dropped, exactly as in the source), and
splice `key` into the symbol-name list. -/
def OrderBook.insert_symbol (b : OrderBook) (key : String) : OrderBook :=
  let table1 := upd b.table (hashStr key) (some (OrderEntry.create key))
  let list1 :=
    match b.cache_list_sorted_symbol_names with
    | [] => [key]
    | x :: rest =>
      if 0 ≤ strcmpS x key then key :: x :: rest
      else snlInsertAfter key (x :: rest)
  { b with table := table1, cache_list_sorted_symbol_names := list1 }

/-- `OrderBook::lookup(key)`: returns the bucket head. The symbol-comparing
`while` loop in the source only advances past entries whose `next_entry` is
non-NULL; no entry ever has one, so the loop never runs and the head is
returned without its symbol being checked. -/
def OrderBook.lookup (b : OrderBook) (key : String) : Option OrderEntry :=
  b.table (hashStr key)

/-- `OrderBook::add_new_order(o)`: reject a regressed timestamp, create the
symbol's entry on first use, record the id → symbol cache entry, insert the
order on the commanded side, advance the engine timestamp. The function is
declared `bool`, so `return status` converts the `int` status as `status != 0`:
`ACCEPT` (0) becomes `false` and `INVALID_ORDER_DETAILS` (303) becomes `true`
(1); the 303 itself never leaves the function. -/
def OrderBook.add_new_order (b : OrderBook) (o : Command) : Option (OrderBook × Bool) :=
  if o.timestamp < b.timestamp then some (b, INVALID_ORDER_DETAILS != 0)
  else
    let b1 :=
      match b.lookup o.symbol with
      | some _ => b
      | none => b.insert_symbol o.symbol
    match b1.lookup o.symbol with
    | none => none -- unreachable: the bucket was just filled; C would call through NULL
    | some oe =>
      let datum := Order.create o.order_id o.order_type o.timestamp o.price o.quantity
      let h := hash_id o.order_id
      let bucket1 := b1.cache_order_to_symbol h ++ [⟨o.order_id, o.symbol⟩]
      let b2 := { b1 with cache_order_to_symbol := upd b1.cache_order_to_symbol h bucket1 }
      let oe1 := oe.add datum o.side
      let b3 := { b2 with table := upd b2.table (hashStr o.symbol) (some oe1) }
      some ({ b3 with timestamp := o.timestamp }, ACCEPT != 0)

/-- `OrderBook::ammend_order(o)`: reject a regressed timestamp; otherwise
route to the symbol's entry (status is the `bool` `true` = `1`, see
`OrderEntry.ammend`) or report `ORDER_DOES_NOT_EXIST` for an unknown
symbol. The engine timestamp is *not* advanced by an amend. -/
def OrderBook.ammend_order (b : OrderBook) (o : Command) : OrderBook × Nat :=
  if o.timestamp < b.timestamp then (b, INVALID_ORDER_DETAILS)
  else
    match b.lookup o.symbol with
    | some oe =>
      let r := oe.ammend o.side o.order_id o.price o.quantity
      ({ b with table := upd b.table (hashStr o.symbol) (some r.1) }, 1)
    | none => (b, ORDER_DOES_NOT_EXIST)

/-- `OrderBook::cancel_order(o)`: reject a regressed timestamp; otherwise
read `cache_order_to_symbol[hash(id)]->symbol` — a NULL dereference
(modelled `none`) when the bucket is empty — and cancel at the looked-up
entry. The engine timestamp advances on both the cancel and the 404 path. -/
def OrderBook.cancel_order (b : OrderBook) (o : Command) : Option (OrderBook × Nat) :=
  if o.timestamp < b.timestamp then some (b, INVALID_ORDER_DETAILS)
  else
    match b.cache_order_to_symbol (hash_id o.order_id) with
    | [] => none -- `cache_order_to_symbol[h]` is NULL and `->symbol` dereferences it
    | e :: _ =>
      match b.lookup e.symbol with
      | some oe =>
        let r := oe.cancel o.order_id o.side
        some ({ b with table := upd b.table (hashStr e.symbol) (some r.1),
                       timestamp := o.timestamp }, r.2)
      | none => some ({ b with timestamp := o.timestamp }, ORDER_DOES_NOT_EXIST)

/-- `OrderBook::match(o)`: reject a regressed timestamp; `F_MATCH_TIMESTAMP`
sweeps every bucket, `F_MATCH_TIMESTAMP_SYMBOL` matches one symbol
(dereferencing a NULL lookup unchecked), anything else just advances the
timestamp. Fuel-indexed through `OrderEntry.match_run`. -/
def OrderBook.matchCmd (fuel : Nat) (b : OrderBook) (o : Command) : Option (OrderBook × Nat) :=
  if o.timestamp < b.timestamp then some (b, INVALID_ORDER_DETAILS)
  else
    match o.format with
    | .F_MATCH_TIMESTAMP =>
      let step : Option OrderBook → Nat → Option OrderBook := fun acc i =>
        match acc with
        | none => none
        | some bk =>
          match bk.table i with
          | none => some bk
          | some e =>
            match OrderEntry.match_run fuel e o.timestamp with
            | .finished _ e1 => some { bk with table := upd bk.table i (some e1) }
            | _ => none
      match (List.range NUM_TOTAL_SYMBOLS_IN_ORDER_BOOK).foldl step (some b) with
      | none => none
      | some b1 => some ({ b1 with timestamp := o.timestamp }, ACCEPT)
    | .F_MATCH_TIMESTAMP_SYMBOL =>
      match b.lookup o.symbol with
      | none => none -- `e->match(o.timestamp)` through a NULL lookup
      | some e =>
        match OrderEntry.match_run fuel e o.timestamp with
        | .finished _ e1 =>
          some ({ b with table := upd b.table (hashStr o.symbol) (some e1),
                         timestamp := o.timestamp }, ACCEPT)
        | _ => none
    | _ => some ({ b with timestamp := o.timestamp }, ACCEPT)

/-- `OrderBook::query(o)`: no timestamp guard and no timestamp update; the
four query sub-forms render rows (global forms walk the sorted symbol list,
a NULL lookup is dereferenced unchecked), every other format falls through
the `switch` and returns `ACCEPT` with no rows. -/
def OrderBook.query (b : OrderBook) (o : Command) : Option (OrderBook × List QueryRow × Nat) :=
  match o.format with
  | .F_QUERY =>
    let step : Option (List QueryRow) → String → Option (List QueryRow) := fun acc sym =>
      match acc with
      | none => none
      | some rows =>
        match b.lookup sym with
        | none => none -- `entry->query()` through a NULL lookup
        | some entry => some (rows ++ entry.query (-1))
    match b.cache_list_sorted_symbol_names.foldl step (some []) with
    | none => none
    | some rows => some (b, rows, ACCEPT)
  | .F_QUERY_SYMBOL =>
    match b.lookup o.symbol with
    | none => none
    | some entry => some (b, entry.query (-1), ACCEPT)
  | .F_QUERY_TIMESTAMP =>
    let step : Option (List QueryRow) → String → Option (List QueryRow) := fun acc sym =>
      match acc with
      | none => none
      | some rows =>
        match b.lookup sym with
        | none => none
        | some entry => some (rows ++ entry.query o.timestamp)
    match b.cache_list_sorted_symbol_names.foldl step (some []) with
    | none => none
    | some rows => some (b, rows, ACCEPT)
  | .F_QUERY_SYMBOL_TIMESTAMP =>
    match b.lookup o.symbol with
    | none => none
    | some entry => some (b, entry.query o.timestamp, ACCEPT)
  | .F_QUERY_TIMESTAMP_SYMBOL =>
    match b.lookup o.symbol with
    | none => none
    | some entry => some (b, entry.query o.timestamp, ACCEPT)
  | _ => some (b, [], ACCEPT)

/-! ## Basic lemmas about the embedding -/

theorem upd_same {α : Type} (f : Nat → α) (i : Nat) (v : α) : upd f i v i = v := by
  simp [upd]

theorem upd_other {α : Type} (f : Nat → α) (i : Nat) (v : α) {j : Nat} (h : j ≠ i) :
    upd f i v j = f j := by
  simp [upd, h]

/-- With the `now` sentinel the history walk reaches the final record. -/
theorem getHistoryEntryLoop_neg_one (cur : alteration_history_t)
    (l : List alteration_history_t) :
    getHistoryEntryLoop (-1) cur l = l.getLastD cur := by
  induction l generalizing cur with
  | nil => rfl
  | cons e rest ih =>
    have h1 : getHistoryEntryLoop (-1) cur (e :: rest) = getHistoryEntryLoop (-1) e rest := by
      simp [getHistoryEntryLoop]
    rw [h1, ih, List.getLastD_cons]

/-- `get_history_entry (-1)` is the last record (the default only fires on
the unreachable empty history). -/
theorem Order.get_history_entry_neg_one (o : Order) :
    o.get_history_entry (-1) = o.history.getLastD ⟨.NOT_EXECUTED, 0, 0, 0⟩ := by
  unfold Order.get_history_entry
  match hh : o.history with
  | [] => rfl
  | e :: rest =>
    show getHistoryEntryLoop (-1) e (e :: rest) = (e :: rest).getLastD _
    rw [getHistoryEntryLoop_neg_one, List.getLastD_cons, List.getLastD_cons]

/-- When every record's date is at most `t` the walk also reaches the final
record, so the as-of view at `t` agrees with the current view. -/
theorem getHistoryEntryLoop_all_le (t : Int) (cur : alteration_history_t)
    (l : List alteration_history_t) (hall : ∀ r ∈ l, r.date ≤ t) :
    getHistoryEntryLoop t cur l = l.getLastD cur := by
  induction l generalizing cur with
  | nil => rfl
  | cons e rest ih =>
    have he : e.date ≤ t := hall e (by simp)
    simp only [getHistoryEntryLoop, List.getLastD_cons]
    rw [if_pos (Or.inr he)]
    exact ih e fun r hr => hall r (by simp [hr])

/-- As-of view at `t` = current view, when all dates are at most `t`. -/
theorem Order.get_history_entry_all_le (o : Order) (t : Int)
    (hall : ∀ r ∈ o.history, r.date ≤ t) :
    o.get_history_entry t = o.get_history_entry (-1) := by
  rw [Order.get_history_entry_neg_one]
  unfold Order.get_history_entry
  match hh : o.history with
  | [] => rfl
  | e :: rest =>
    show getHistoryEntryLoop t e (e :: rest) = (e :: rest).getLastD _
    rw [getHistoryEntryLoop_all_le t e (e :: rest), List.getLastD_cons, List.getLastD_cons]
    exact fun r hr => hall r (by rw [hh]; exact hr)

/-- Appending goes through whenever the current last date does not exceed
the new one. -/
theorem Order.add_execution_history_entry_append (o : Order) (st : execution_status_t)
    (date : Int) (price : Int) (q : Nat)
    (hle : (o.history.getLastD ⟨.NOT_EXECUTED, 0, 0, 0⟩).date ≤ date) :
    o.add_execution_history_entry st date price q =
      { o with history := o.history ++ [⟨st, date, price, q⟩] } := by
  unfold Order.add_execution_history_entry
  rw [Order.get_history_entry_neg_one, if_neg (by omega)]

/-- A heap index at or above `active` never has precedence over itself. -/
theorem has_precedenceI_self (h : OrderMinMaxHeap) (i : Int) :
    h.has_precedenceI i i (-1) = false := by
  simp [OrderMinMaxHeap.has_precedenceI, hasPrecedenceO]

/-- `has_childrenI` at a cast natural index agrees with `has_children`. -/
theorem has_childrenI_ofNat (h : OrderMinMaxHeap) (m : Nat) :
    h.has_childrenI (m : Int) = h.has_children m := by
  have h2 : ¬ ((2 : Int) * (m : Int) < 0) := by omega
  have h4 : ¬ ((4 : Int) * (m : Int) < 0) := by omega
  have e2 : ((2 : Int) * (m : Int)).toNat = 2 * m := by omega
  have e4 : ((4 : Int) * (m : Int)).toNat = 4 * m := by omega
  simp only [OrderMinMaxHeap.has_childrenI, OrderMinMaxHeap.allocatedI,
    OrderMinMaxHeap.has_children, if_neg h2, if_neg h4, e2, e4]

/-- `push_down` is the identity: `push_down_min`'s body `break`s on its
first iteration (`mi = i` and an order never has precedence over itself),
and `push_down_max` is only ever invoked when `has_children` fails, so its
loop never starts. -/
theorem push_down_eq (h : OrderMinMaxHeap) (m : Nat) : h.push_down m = h := by
  unfold OrderMinMaxHeap.push_down
  by_cases hc : h.has_children m
  · rw [if_pos hc]
    unfold OrderMinMaxHeap.push_down_min
    show push_down_min_go (m : Int) (63 + 1) h (m : Int) (m : Int) = h
    rw [push_down_min_go, has_childrenI_ofNat, if_pos hc, has_precedenceI_self]
    simp
  · rw [if_neg hc]
    unfold OrderMinMaxHeap.push_down_max
    show push_down_max_go (m : Int) (63 + 1) h (m : Int) (m : Int) = h
    rw [push_down_max_go, has_childrenI_ofNat]
    simp [hc]

/-! ## Concrete states used by the claim theorems (all built through the
public operations, so each is reachable) -/

/-- Projection: the trade row of a `traded` step. -/
def MatchStepResult.row_of : MatchStepResult → Option TradeRow
  | .traded row _ => some row
  | _ => none

/-- Projection: the successor entry of a `traded` step. -/
def MatchStepResult.entry_of : MatchStepResult → Option OrderEntry
  | .traded _ e => some e
  | _ => none

/-- Projection: did the fueled match loop reach its `break`? -/
def MatchResult.isFinished : MatchResult → Bool
  | .finished _ _ => true
  | _ => false

/-- A buy book holding order 1 (price 10, time 1) and order 2 (price 20,
time 2). -/
def exampleBuyHeap : OrderMinMaxHeap :=
  ((OrderMinMaxHeap.create .BUY_HEAP).insert (Order.create 1 .LIMIT 1 10 5)).insert
    (Order.create 2 .LIMIT 2 20 5)

/-- Symbol book AB with best buy (id 1, price 5, qty 100, time 1) and best
sell (id 2, price 4, qty 30, time 2): a crossed book. -/
def exampleCrossedEntry : OrderEntry :=
  ((OrderEntry.create "AB").add (Order.create 1 .LIMIT 1 5 100) .BUY).add
    (Order.create 2 .LIMIT 2 4 30) .SELL

/-- A `X,999,10` cancel command (parser output: empty symbol, BUY/LIMIT
defaults, zero price and quantity). -/
def exampleCancelCmd : Command :=
  ⟨.F_NEW, .CANCEL, 999, 10, "", .BUY, .LIMIT, 0, 0⟩

/-- A single-order buy book (order 1, price 10, qty 5, time 1). -/
def exampleOneOrderHeap : OrderMinMaxHeap :=
  (OrderMinMaxHeap.create .BUY_HEAP).insert (Order.create 1 .LIMIT 1 10 5)

/-- Order 1 (price 10, qty 5, created at time 1) after `amend(20, 7)`. -/
def exampleAmendedOrder : Order :=
  (Order.create 1 .LIMIT 1 10 5).ammend 20 7

/-- A `N,id,t,SYM,L,B,10.00,7` command. -/
def mkNewCmd (id_ : Nat) (t : Int) (sym : String) : Command :=
  ⟨.F_NEW, .NEW, id_, t, sym, .BUY, .LIMIT, 10, 7⟩

/-- Engine after admitting order 1 on symbol AA (t = 1). -/
def bAA : OrderBook :=
  ((OrderBook.init.add_new_order (mkNewCmd 1 1 "AA")).map Prod.fst).getD OrderBook.init

/-- ... then order 2 on AC (t = 2). -/
def bAAAC : OrderBook :=
  ((bAA.add_new_order (mkNewCmd 2 2 "AC")).map Prod.fst).getD OrderBook.init

/-- ... then order 3 on AB (t = 3): three accepted NEW commands. -/
def bAAACAB : OrderBook :=
  ((bAAAC.add_new_order (mkNewCmd 3 3 "AB")).map Prod.fst).getD OrderBook.init

/-- A global `Q` command. -/
def qGlobalCmd : Command :=
  ⟨.F_QUERY, .QUERY, 0, 0, "", .BUY, .LIMIT, 0, 0⟩

/-- Engine after admitting order 66535 on AB at t = 1 (66535 = 999 + 2^16,
so its id shares the order-to-symbol cache bucket of id 999). -/
def bCollide : OrderBook :=
  ((OrderBook.init.add_new_order (mkNewCmd 66535 1 "AB")).map Prod.fst).getD OrderBook.init

/-- `X,999,2`: cancel the never-admitted id 999. -/
def cancel999Cmd : Command :=
  ⟨.F_NEW, .CANCEL, 999, 2, "", .BUY, .LIMIT, 0, 0⟩

/-- The AB entry of `bCollide`. -/
def bCollideEntry : OrderEntry :=
  (bCollide.lookup "AB").getD (OrderEntry.create "AB")

/-- A global `Q,0` query carrying timestamp 0 (smaller than `bCollide`'s
last timestamp 1). -/
def qPastCmd : Command :=
  ⟨.F_QUERY_TIMESTAMP, .QUERY, 0, 0, "", .BUY, .LIMIT, 0, 0⟩

/-- A global `Q,5` query carrying timestamp 5 (larger than the fresh
engine's last timestamp 0). -/
def qFutureCmd : Command :=
  ⟨.F_QUERY_TIMESTAMP, .QUERY, 0, 5, "", .BUY, .LIMIT, 0, 0⟩

/-! ## Claim theorems -/

/-- C1: on the reachable crossed book AB (best buy id 1, price 5, qty 100;
best sell id 2, price 4, qty 30) the matching step emits the trade row with
price `b.price = 5` and the pre-trade quantities, but the `apply_fill`
calls (`transact(_, b_price, t)`) reduce **both** remaining quantities by
the buy *price* 5 — leaving 95 and 25 — not by the claim's trade quantity
`min(100, 30) = 30`, which would leave 70 and 0. -/
theorem claim_C1_fill_deducts_buy_price_not_min_qty :
    (exampleCrossedEntry.match_step 3).row_of =
      some ⟨"AB", 1, .LIMIT, 100, 5, 4, 30, .LIMIT, 2⟩ ∧
    ((exampleCrossedEntry.match_step 3).entry_of).map
        (fun e => ((e.buys.data 0).get_quantity (-1), (e.sells.data 0).get_quantity (-1))) =
      some (95, 25) ∧
    Nat.min 100 30 = 30 ∧ (95, 25) ≠ (100 - 30, 30 - 30) := by decide

/-- C2: in the reachable buy book holding order 1 (price 10, t = 1) and
order 2 (price 20, t = 2), `top` (`get_max_order`) returns the *lowest*
priced buy (id 1, price 10) although the active order 2 at price 20 has the
higher price: `has_precedence` returns `a.price < b.price` for both sides,
its side-aware, time-tie-broken comparison being dead code. -/
theorem claim_C2_top_returns_lowest_price_buy :
    (exampleBuyHeap.get_max_order).map (fun o => (o.order_id, o.get_price (-1))) =
      some (1, 10) ∧
    exampleBuyHeap.allocated 1 = true ∧
    (exampleBuyHeap.data 1).order_id = 2 ∧
    (exampleBuyHeap.data 1).get_price (-1) = 20 ∧
    (exampleBuyHeap.data 1).get_status (-1) = .NOT_EXECUTED ∧
    (10 : Int) < 20 := by decide

/-- C3 (counterexample to the claim as stated): a Query command carrying a
timestamp (0) strictly smaller than the engine's last timestamp (1) is
*not* rejected with 303: `OrderBook::query` has no timestamp guard and
returns `ACCEPT`, processing the query (the state is indeed unchanged). -/
theorem claim_C3_counterexample_query_not_rejected :
    qPastCmd.timestamp < bCollide.timestamp ∧
    (bCollide.query qPastCmd).map (fun r => r.2.2) = some ACCEPT ∧
    (bCollide.query qPastCmd).map Prod.fst = some bCollide ∧
    ACCEPT ≠ INVALID_ORDER_DETAILS :=
  ⟨by decide, by decide, rfl, by decide⟩

/-- C3 (amended): every *state-mutating* command (NEW, AMEND, CANCEL,
MATCH — Query excepted, it is never rejected) carrying a timestamp strictly
smaller than the engine's last timestamp is refused with the entire engine
state returned unchanged. AMEND, CANCEL and MATCH report
`InvalidOrderDetails` (303); `add_new_order` computes the same 303 status
but is declared `bool`, so `return status` truncates it to `true` (1) and
no 303 — and hence no Reject — reaches the driver for a stale NEW. -/
theorem claim_C3_stale_mutating_commands_rejected (fuel : Nat) (b : OrderBook) (c : Command)
    (hts : c.timestamp < b.timestamp) :
    b.add_new_order c = some (b, true) ∧
    b.ammend_order c = (b, INVALID_ORDER_DETAILS) ∧
    b.cancel_order c = some (b, INVALID_ORDER_DETAILS) ∧
    OrderBook.matchCmd fuel b c = some (b, INVALID_ORDER_DETAILS) := by
  refine ⟨?_, ?_, ?_, ?_⟩ <;>
    simp [OrderBook.add_new_order, OrderBook.ammend_order, OrderBook.cancel_order,
      OrderBook.matchCmd, INVALID_ORDER_DETAILS, hts]

/-- C3 witness: the regressed-timestamp NEW `N,9,0,ZZ,...` against the
engine whose last timestamp is 1 returns `true`, the truncation of 303. -/
theorem claim_C3_witness :
    (mkNewCmd 9 0 "ZZ").timestamp < bCollide.timestamp ∧
    bCollide.add_new_order (mkNewCmd 9 0 "ZZ") = some (bCollide, true) :=
  ⟨by decide, (claim_C3_stale_mutating_commands_rejected 1 bCollide (mkNewCmd 9 0 "ZZ")
    (by decide)).1⟩

/-- C4: cancelling the never-admitted id 999 on a fresh engine does not
produce `CancelReject 404`: the order-to-symbol cache bucket for id 999 is
empty (NULL) and `cancel_order` dereferences it
(`cache_order_to_symbol[h]->symbol`) before any existence check — an
out-of-bounds access, modelled `none`, where the claim (and §8 scenario 3
of the spec) requires a 404 reject with no state change. -/
theorem claim_C4_cancel_unknown_dereferences_null :
    OrderBook.init.cache_order_to_symbol (hash_id 999) = [] ∧
    OrderBook.init.cancel_order exampleCancelCmd = none :=
  ⟨rfl, rfl⟩

/-- C6 (counterexample to the claim as stated): amending the resting order
1 (price 10, qty 5) to price 20, qty 7 appends **two** history records, not
exactly one — `OrderMinMaxHeap::ammend` calls `Order::ammend` (one append)
and then `add_execution_history_entry` again with the same fields. -/
theorem claim_C6_counterexample_two_records :
    ((exampleOneOrderHeap.ammend 1 20 7).1.data 0).history =
      [⟨.NOT_EXECUTED, 1, 10, 5⟩, ⟨.NOT_EXECUTED, 1, 20, 7⟩, ⟨.NOT_EXECUTED, 1, 20, 7⟩] ∧
    ((exampleOneOrderHeap.ammend 1 20 7).1.data 0).history.length ≠
      (exampleOneOrderHeap.data 0).history.length + 1 := by decide

/-- C7 (counterexample to the claim as stated): after the order created at
t = 1 (price 10, qty 5) is amended to (20, 7), its history holds two
*distinct* records sharing the date 1, which is the largest timestamp ≤ 2 —
so "the unique history record with the largest timestamp ≤ t" does not
exist; `get_history_entry 2` returns the later-appended of the tied
records. -/
theorem claim_C7_counterexample_no_unique_record :
    exampleAmendedOrder.history = [⟨.NOT_EXECUTED, 1, 10, 5⟩, ⟨.NOT_EXECUTED, 1, 20, 7⟩] ∧
    exampleAmendedOrder.get_history_entry 2 = ⟨.NOT_EXECUTED, 1, 20, 7⟩ ∧
    (⟨.NOT_EXECUTED, 1, 10, 5⟩ : alteration_history_t) ≠ ⟨.NOT_EXECUTED, 1, 20, 7⟩ ∧
    (⟨.NOT_EXECUTED, 1, 10, 5⟩ : alteration_history_t).date =
      (⟨.NOT_EXECUTED, 1, 20, 7⟩ : alteration_history_t).date := by decide

/-- C8: admitting AA (t=1), AC (t=2), AB (t=3) leaves the symbol list as
`[AA, AC, AB]` — not the ascending sorted key set `[AA, AB, AC]` (the
sorted-insert loop advances on the *current* node's comparison, splicing AB
in after AC) — and the global Query therefore emits the AC rows before the
AB rows. -/
theorem claim_C8_symbol_list_not_sorted :
    bAAACAB.cache_list_sorted_symbol_names = ["AA", "AC", "AB"] ∧
    ["AA", "AC", "AB"] ≠ ["AA", "AB", "AC"] ∧
    (bAAACAB.query qGlobalCmd).map (fun r => r.2.1.map QueryRow.symbol) =
      some ["AA", "AC", "AB"] := by decide

/-- C9: a Cancel whose id maps to a non-empty order-to-symbol cache bucket
and whose symbol lookup succeeds reports `CancelAccept` even though no
active order carries that id in the designated side book:
`OrderEntry::cancel` discards the side book's `ORDER_DOES_NOT_EXIST` and
returns `ACCEPT` unconditionally. -/
theorem claim_C9_cancel_always_accepts (b : OrderBook) (c : Command)
    (e : hash_order_to_symbol) (rest : List hash_order_to_symbol) (oe : OrderEntry)
    (hts : ¬ c.timestamp < b.timestamp)
    (hbucket : b.cache_order_to_symbol (hash_id c.order_id) = e :: rest)
    (hlook : b.lookup e.symbol = some oe)
    (_hmiss : (match c.side with | .BUY => oe.buys | .SELL => oe.sells).search c.order_id
      = none) :
    (OrderEntry.cancel oe c.order_id c.side).2 = ACCEPT ∧
    (b.cancel_order c).map Prod.snd = some ACCEPT := by
  constructor
  · cases c.side <;> rfl
  · simp only [OrderBook.cancel_order, hbucket, hlook, if_neg hts]
    cases c.side <;> rfl

/-- C9 witness: engine holding only order 66535 on AB; `X,999,2` hits the
shared cache bucket, looks up AB, finds no order 999 there, and still
cancels with `ACCEPT`. -/
theorem claim_C9_witness :
    (¬ cancel999Cmd.timestamp < bCollide.timestamp) ∧
    bCollide.cache_order_to_symbol (hash_id cancel999Cmd.order_id) = [⟨66535, "AB"⟩] ∧
    bCollideEntry.buys.search cancel999Cmd.order_id = none ∧
    (bCollide.cancel_order cancel999Cmd).map Prod.snd = some ACCEPT :=
  ⟨by decide, by decide, by decide,
    (claim_C9_cancel_always_accepts bCollide cancel999Cmd ⟨66535, "AB"⟩ [] bCollideEntry
      (by decide) (by decide) rfl (by decide)).2⟩

/-- C10: every Query command leaves the entire engine state — directory,
books, orders and `last_timestamp` — unchanged: whenever
`OrderBook::query` completes, the resulting state equals the input state,
for every sub-form and every carried timestamp (larger than
`last_timestamp` included; there is no timestamp read or write in `query`
at all). -/
theorem claim_C10_query_leaves_state_unchanged (b : OrderBook) (o : Command)
    (r : OrderBook × List QueryRow × Nat) (hq : b.query o = some r) : r.1 = b := by
  rcases o with ⟨fmt, oa, oid, ts, sym, sd, ot, p, q⟩
  cases fmt <;> simp only [OrderBook.query] at hq <;>
    first
      | (split at hq
         · exact Option.noConfusion hq
         · (injection hq with h; subst h; rfl))
      | (injection hq with h; subst h; rfl)

/-- C10 witness: the global `Q,5` query, carrying a timestamp larger than
the fresh engine's last timestamp 0, returns the state unchanged. -/
theorem claim_C10_witness :
    OrderBook.init.query qFutureCmd = some (OrderBook.init, [], ACCEPT) ∧
    ((OrderBook.init, [], ACCEPT) : OrderBook × List QueryRow × Nat).1 = OrderBook.init :=
  ⟨rfl, claim_C10_query_leaves_state_unchanged OrderBook.init qFutureCmd
    (OrderBook.init, [], ACCEPT) rfl⟩

/-- The record `Order::ammend(p, q)` appends: current status and date with
the new price and quantity. -/
def amendRecord (o : Order) (p : Int) (q : Nat) : alteration_history_t :=
  ⟨(o.history.getLastD ⟨.NOT_EXECUTED, 0, 0, 0⟩).history,
   (o.history.getLastD ⟨.NOT_EXECUTED, 0, 0, 0⟩).date, p, q⟩

/-- C6 (amended): for every existing order (one the side book's `search`
finds), `amend(new_price, new_qty)` appends exactly **two identical**
history records, each preserving the order's current status and current
timestamp while carrying the new price and quantity; the order's id, its
head (arrival) date, its current timestamp, every other cell, and the
heap's cursors and allocation are unchanged. -/
theorem claim_C6_amend_appends_two_identical_records (h : OrderMinMaxHeap) (id_ : Nat) (p : Int) (q : Nat) (i : Nat)
    (hs : h.search id_ = some i) :
    (h.ammend id_ p q).2 = ACCEPT ∧
    ((h.ammend id_ p q).1.data i).history =
      (h.data i).history ++ [amendRecord (h.data i) p q, amendRecord (h.data i) p q] ∧
    ((h.ammend id_ p q).1.data i).order_id = (h.data i).order_id ∧
    ((h.ammend id_ p q).1.data i).head_date = (h.data i).head_date ∧
    ((h.ammend id_ p q).1.data i).get_timestamp (-1) = (h.data i).get_timestamp (-1) ∧
    (∀ j, j ≠ i → (h.ammend id_ p q).1.data j = h.data j) ∧
    (h.ammend id_ p q).1.active = h.active ∧
    (h.ammend id_ p q).1.matched = h.matched ∧
    (h.ammend id_ p q).1.allocated = h.allocated := by
  have dflt : alteration_history_t := ⟨.NOT_EXECUTED, 0, 0, 0⟩
  set o := h.data i with ho
  set e := amendRecord o p q with he
  have hlast : o.get_history_entry (-1) = o.history.getLastD ⟨.NOT_EXECUTED, 0, 0, 0⟩ :=
    Order.get_history_entry_neg_one o
  have h1 : o.ammend p q = { o with history := o.history ++ [e] } := by
    unfold Order.ammend
    rw [hlast]
    exact Order.add_execution_history_entry_append o _ _ p q le_rfl
  have hgl1 : (o.ammend p q).get_history_entry (-1) = e := by
    rw [h1, Order.get_history_entry_neg_one]
    exact List.getLastD_concat _ _ _
  have h2 : (o.ammend p q).add_execution_history_entry
      ((o.ammend p q).get_history_entry (-1)).history ((o.ammend p q).get_timestamp (-1)) p q
      = { o with history := o.history ++ [e, e] } := by
    rw [Order.get_timestamp, hgl1]
    have := Order.add_execution_history_entry_append (o.ammend p q) e.history e.date p q
      (by rw [h1]; simp only [List.getLastD_concat]; exact le_rfl)
    rw [h1] at this ⊢
    rw [this]
    simp [he, amendRecord]
  unfold OrderMinMaxHeap.ammend
  simp only [hs]
  rw [push_down_eq]
  refine ⟨by trivial, ?_, ?_, ?_, ?_, ?_, by trivial, by trivial, by trivial⟩
  · show (upd h.data i _ i).history = _
    rw [upd_same, h2]
  · show (upd h.data i _ i).order_id = _
    rw [upd_same, h2]
  · show (upd h.data i _ i).head_date = _
    rw [upd_same, h2]
    cases hh : o.history with
    | nil => simp [Order.head_date, he, amendRecord, hh]
    | cons x l => simp [Order.head_date, hh]
  · show (upd h.data i _ i).get_timestamp (-1) = _
    rw [upd_same, h2, Order.get_timestamp, Order.get_timestamp,
      Order.get_history_entry_neg_one, Order.get_history_entry_neg_one]
    show ((o.history ++ [e, e]).getLastD _).date = _
    have : o.history ++ [e, e] = (o.history ++ [e]) ++ [e] := by simp
    rw [this, List.getLastD_concat]
    simp [he, amendRecord]
  · intro j hj
    show (upd h.data i _ j) = _
    rw [upd_other _ _ _ hj]

/-- In a date-sorted tail, the walk returns the last record with date ≤ t. -/
theorem getHistoryEntryLoop_sorted (t : Int) (hne : t ≠ -1) :
    ∀ (l : List alteration_history_t) (cur : alteration_history_t),
      cur.date ≤ t →
      l.Pairwise (fun a b => a.date ≤ b.date) →
      getHistoryEntryLoop t cur l =
        (l.filter (fun r => decide (r.date ≤ t))).getLastD cur := by
  intro l
  induction l with
  | nil => intro cur _ _; rfl
  | cons e rest ih =>
    intro cur hcur hpair
    rcases List.pairwise_cons.mp hpair with ⟨hall, hrest⟩
    by_cases he : e.date ≤ t
    · have hcond : (t = -1 ∨ e.date ≤ t) := Or.inr he
      rw [show getHistoryEntryLoop t cur (e :: rest) = getHistoryEntryLoop t e rest from by
        simp [getHistoryEntryLoop, hcond]]
      rw [ih e he hrest]
      have : (e :: rest).filter (fun r => decide (r.date ≤ t)) =
          e :: rest.filter (fun r => decide (r.date ≤ t)) := by
        simp [List.filter_cons, he]
      rw [this, List.getLastD_cons]
    · have hcond : ¬ (t = -1 ∨ e.date ≤ t) := by
        push_neg
        exact ⟨hne, by omega⟩
      rw [show getHistoryEntryLoop t cur (e :: rest) = cur from by
        simp [getHistoryEntryLoop, hcond]]
      have hrestnil : rest.filter (fun r => decide (r.date ≤ t)) = [] := by
        refine List.filter_eq_nil_iff.mpr fun a ha => ?_
        simp only [decide_eq_true_eq]
        have := hall a ha
        omega
      have : (e :: rest).filter (fun r => decide (r.date ≤ t)) = [] := by
        simp [List.filter_cons, he, hrestnil]
      rw [this]
      rfl

/-- The default of `getLastD` on a nonempty list is irrelevant, and the
result is a member. -/
theorem getLastD_cons_mem {α : Type} : ∀ (l : List α) (x d : α), (x :: l).getLastD d ∈ x :: l
  | [], x, d => by simp [List.getLastD_cons]
  | y :: l, x, d => by
    rw [List.getLastD_cons]
    exact List.mem_cons_of_mem x (getLastD_cons_mem l y x)

/-- Every member of a date-sorted nonempty list dates at most the last. -/
theorem pairwise_date_le_getLastD (d : alteration_history_t) :
    ∀ (l : List alteration_history_t) (x : alteration_history_t),
      (x :: l).Pairwise (fun a b => a.date ≤ b.date) →
      ∀ r ∈ x :: l, r.date ≤ ((x :: l).getLastD d).date := by
  intro l
  induction l with
  | nil =>
    intro x _ r hr
    rcases List.mem_singleton.mp hr with rfl
    simp [List.getLastD_cons]
  | cons y l ih =>
    intro x hpair r hr
    rcases List.pairwise_cons.mp hpair with ⟨hall, hrest⟩
    rw [List.getLastD_cons]
    rcases List.mem_cons.mp hr with rfl | hr2
    · calc r.date ≤ y.date := hall y (by simp)
        _ ≤ ((y :: l).getLastD d).date := ih y hrest y (by simp)
    · exact ih y hrest r hr2

/-- C7 (amended): for every order with date-sorted history and every
`t ≥ 0` at least the creation (head) date, the as-of query returns exactly
the **last** record whose timestamp is ≤ t; that record is a member of the
history, its timestamp is ≤ t, and its timestamp is maximal among records
with timestamp ≤ t (but it need not be the *unique* record with that
timestamp, see the counterexample). -/
theorem claim_C7_as_of_returns_last_record_le (o : Order) (t : Int)
    (hne : o.history ≠ []) (ht0 : 0 ≤ t) (hhead : o.head_date ≤ t)
    (hsort : o.history.Pairwise (fun a b => a.date ≤ b.date)) :
    o.get_history_entry t =
      (o.history.filter (fun r => decide (r.date ≤ t))).getLastD ⟨.NOT_EXECUTED, 0, 0, 0⟩ ∧
    o.get_history_entry t ∈ o.history ∧
    (o.get_history_entry t).date ≤ t ∧
    (∀ r ∈ o.history, r.date ≤ t → r.date ≤ (o.get_history_entry t).date) := by
  have hnet : t ≠ -1 := by omega
  obtain ⟨x, rest, hx⟩ : ∃ x rest, o.history = x :: rest := by
    cases hh : o.history with
    | nil => exact absurd hh hne
    | cons x rest => exact ⟨x, rest, rfl⟩
  have hxd : x.date ≤ t := by
    have : o.head_date = x.date := by simp [Order.head_date, hx]
    omega
  have hpx : (x :: rest).Pairwise (fun a b => a.date ≤ b.date) := hx ▸ hsort
  have hloop : o.get_history_entry t =
      ((x :: rest).filter (fun r => decide (r.date ≤ t))).getLastD x := by
    unfold Order.get_history_entry
    rw [hx]
    show getHistoryEntryLoop t x (x :: rest) = _
    rw [getHistoryEntryLoop_sorted t hnet (x :: rest) x hxd hpx]
  have hfc : (x :: rest).filter (fun r => decide (r.date ≤ t)) =
      x :: rest.filter (fun r => decide (r.date ≤ t)) := by
    simp [List.filter_cons, hxd]
  have hsub : List.Sublist (x :: rest.filter (fun r => decide (r.date ≤ t))) (x :: rest) :=
    List.Sublist.cons₂ x (List.filter_sublist rest)
  have hres : o.get_history_entry t =
      (x :: rest.filter (fun r => decide (r.date ≤ t))).getLastD
        ⟨.NOT_EXECUTED, 0, 0, 0⟩ := by
    rw [hloop, hfc, List.getLastD_cons, List.getLastD_cons]
  have hmem0 : o.get_history_entry t ∈ x :: rest.filter (fun r => decide (r.date ≤ t)) := by
    rw [hres]
    exact getLastD_cons_mem _ x _
  refine ⟨by rw [hloop, hx, hfc, List.getLastD_cons, List.getLastD_cons], ?_, ?_, ?_⟩
  · rw [hx]
    exact hsub.mem hmem0
  · rcases List.mem_cons.mp hmem0 with h | h
    · rw [h]; exact hxd
    · exact (by simpa using (List.mem_filter.mp h).2)
  · intro r hr hrle
    have hrmem : r ∈ x :: rest.filter (fun r => decide (r.date ≤ t)) := by
      rw [hx] at hr
      rcases List.mem_cons.mp hr with rfl | hr2
      · simp
      · exact List.mem_cons_of_mem x (List.mem_filter.mpr ⟨hr2, by simpa using hrle⟩)
    have hpf : (x :: rest.filter (fun r => decide (r.date ≤ t))).Pairwise
        (fun a b => a.date ≤ b.date) := hpx.sublist hsub
    have := pairwise_date_le_getLastD ⟨.NOT_EXECUTED, 0, 0, 0⟩
      (rest.filter (fun r => decide (r.date ≤ t))) x hpf r hrmem
    rw [hres]
    exact this

/-- C6 witness: the single-order book, order 1 amended to (20, 7). -/
theorem claim_C6_witness :
    exampleOneOrderHeap.search 1 = some 0 ∧
    ((exampleOneOrderHeap.ammend 1 20 7).1.data 0).history =
      (exampleOneOrderHeap.data 0).history ++
        [amendRecord (exampleOneOrderHeap.data 0) 20 7,
         amendRecord (exampleOneOrderHeap.data 0) 20 7] :=
  ⟨by decide, (claim_C6_amend_appends_two_identical_records exampleOneOrderHeap 1 20 7 0
    (by decide)).2.1⟩

/-- C7 witness: the amended order queried as of t = 2. -/
theorem claim_C7_witness :
    exampleAmendedOrder.get_history_entry 2 =
      (exampleAmendedOrder.history.filter (fun r => decide (r.date ≤ 2))).getLastD
        ⟨.NOT_EXECUTED, 0, 0, 0⟩ ∧
    (exampleAmendedOrder.get_history_entry 2).date ≤ 2 :=
  ⟨(claim_C7_as_of_returns_last_record_le exampleAmendedOrder 2 (by decide) (by decide)
      (by decide) (by decide)).1,
   (claim_C7_as_of_returns_last_record_le exampleAmendedOrder 2 (by decide) (by decide)
      (by decide) (by decide)).2.2.1⟩

/-- The record the zero-price match loop appends on every iteration. -/
def zRec : alteration_history_t := ⟨.PARTIALLY_EXECUTED, 3, 0, 1⟩

/-- The zero-price buy order after `k` iterations of the match loop. -/
def zeroBuyOrder (k : Nat) : Order :=
  ⟨1, .LIMIT, ⟨.NOT_EXECUTED, 1, 0, 1⟩ :: List.replicate k zRec⟩

/-- The zero-price sell order after `k` iterations. -/
def zeroSellOrder (k : Nat) : Order :=
  ⟨2, .LIMIT, ⟨.NOT_EXECUTED, 2, 0, 1⟩ :: List.replicate k zRec⟩

/-- The buy book after `k` iterations. -/
def zeroBuys (k : Nat) : OrderMinMaxHeap :=
  ⟨upd (fun _ => Order.default_order) 0 (zeroBuyOrder k), upd (fun _ => false) 0 true,
    1, 1, .BUY_HEAP⟩

/-- The sell book after `k` iterations. -/
def zeroSells (k : Nat) : OrderMinMaxHeap :=
  ⟨upd (fun _ => Order.default_order) 0 (zeroSellOrder k), upd (fun _ => false) 0 true,
    1, 1, .SELL_HEAP⟩

/-- The AB book after `k` iterations of matching the crossed zero-price
orders. -/
def zeroEntryK (k : Nat) : OrderEntry :=
  ⟨"AB", zeroBuys k, zeroSells k⟩

/-- The crossed zero-price book, built through the public operations:
buy(id 1, price 0.00, qty 1, t=1) against sell(id 2, price 0.00, qty 1,
t=2). -/
def exampleZeroEntry : OrderEntry :=
  ((OrderEntry.create "AB").add (Order.create 1 .LIMIT 1 0 1) .BUY).add
    (Order.create 2 .LIMIT 2 0 1) .SELL

theorem getLastD_cons_replicate {α : Type} (a b d : α) :
    ∀ k, (a :: List.replicate k b).getLastD d = if k = 0 then a else b
  | 0 => rfl
  | k + 1 => by
    rw [List.replicate_succ, List.getLastD_cons, getLastD_cons_replicate b b a k]
    cases k <;> simp

theorem upd_upd_same {α : Type} (f : Nat → α) (i : Nat) (a b : α) :
    upd (upd f i a) i b = upd f i b := by
  funext j
  by_cases hj : j = i <;> simp [upd, hj]

theorem zeroEntry_eq : exampleZeroEntry = zeroEntryK 0 := by
  unfold exampleZeroEntry zeroEntryK OrderEntry.create OrderEntry.add
  simp only []
  congr 1
  · unfold OrderMinMaxHeap.insert OrderMinMaxHeap.create OrderMinMaxHeap.swap
      OrderMinMaxHeap.push_up zeroBuys
    norm_num
    funext j
    by_cases hj : j = 0 <;> simp [upd, hj, zeroBuyOrder, Order.create]
  · unfold OrderMinMaxHeap.insert OrderMinMaxHeap.create OrderMinMaxHeap.swap
      OrderMinMaxHeap.push_up zeroSells
    norm_num
    funext j
    by_cases hj : j = 0 <;> simp [upd, hj, zeroSellOrder, Order.create]

theorem zeroBuyOrder_last (k : Nat) :
    (zeroBuyOrder k).get_history_entry (-1) =
      if k = 0 then ⟨.NOT_EXECUTED, 1, 0, 1⟩ else zRec := by
  rw [Order.get_history_entry_neg_one]
  exact getLastD_cons_replicate _ _ _ k

theorem zeroSellOrder_last (k : Nat) :
    (zeroSellOrder k).get_history_entry (-1) =
      if k = 0 then ⟨.NOT_EXECUTED, 2, 0, 1⟩ else zRec := by
  rw [Order.get_history_entry_neg_one]
  exact getLastD_cons_replicate _ _ _ k

theorem zeroBuyOrder_at3 (k : Nat) :
    (zeroBuyOrder k).get_history_entry 3 = (zeroBuyOrder k).get_history_entry (-1) := by
  apply Order.get_history_entry_all_le
  intro r hr
  rcases List.mem_cons.mp hr with rfl | hr2
  · norm_num
  · rw [List.eq_of_mem_replicate hr2]
    norm_num [zRec]

theorem zeroSellOrder_at3 (k : Nat) :
    (zeroSellOrder k).get_history_entry 3 = (zeroSellOrder k).get_history_entry (-1) := by
  apply Order.get_history_entry_all_le
  intro r hr
  rcases List.mem_cons.mp hr with rfl | hr2
  · norm_num
  · rw [List.eq_of_mem_replicate hr2]
    norm_num [zRec]

theorem zeroBuys_search (k : Nat) : (zeroBuys k).search 1 = some 0 := rfl

theorem zeroSells_search (k : Nat) : (zeroSells k).search 2 = some 0 := rfl

theorem zeroBuyOrder_transact (k : Nat) :
    (zeroBuyOrder k).transact 3 0 1 = zeroBuyOrder (k + 1) := by
  unfold Order.transact
  rw [if_neg (by omega)]
  rw [Order.add_execution_history_entry_append _ _ _ _ _ (by
    simp only [zeroBuyOrder]
    rw [getLastD_cons_replicate]
    cases k <;> simp [zRec])]
  unfold zeroBuyOrder
  rw [List.replicate_succ']
  rfl

theorem zeroSellOrder_transact (k : Nat) :
    (zeroSellOrder k).transact 3 0 1 = zeroSellOrder (k + 1) := by
  unfold Order.transact
  rw [if_neg (by omega)]
  rw [Order.add_execution_history_entry_append _ _ _ _ _ (by
    simp only [zeroSellOrder]
    rw [getLastD_cons_replicate]
    cases k <;> simp [zRec])]
  unfold zeroSellOrder
  rw [List.replicate_succ']
  rfl

theorem zeroBuys_transact (k : Nat) :
    (zeroBuys k).transact 1 0 3 = some (zeroBuys (k + 1)) := by
  have hq : ((zeroBuys k).data 0).get_quantity 3 = 1 := by
    show (zeroBuyOrder k).get_quantity 3 = 1
    rw [Order.get_quantity, zeroBuyOrder_at3, zeroBuyOrder_last]
    cases k <;> simp [zRec]
  have hp : ((zeroBuys k).data 0).get_price 3 = 0 := by
    show (zeroBuyOrder k).get_price 3 = 0
    rw [Order.get_price, zeroBuyOrder_at3, zeroBuyOrder_last]
    cases k <;> simp [zRec]
  simp only [OrderMinMaxHeap.transact, zeroBuys_search, hq, hp]
  rw [if_neg (by omega)]
  have h1 : (((1 : Nat) : Int) - 0).toNat = 1 := by norm_num
  rw [h1]
  have h2 : (zeroBuys k).data 0 = zeroBuyOrder k := rfl
  rw [h2, zeroBuyOrder_transact k]
  have h3 : upd ((zeroBuys k).data) 0 (zeroBuyOrder (k + 1)) = (zeroBuys (k + 1)).data := by
    show upd (upd (fun _ => Order.default_order) 0 (zeroBuyOrder k)) 0 (zeroBuyOrder (k + 1)) =
      upd (fun _ => Order.default_order) 0 (zeroBuyOrder (k + 1))
    exact upd_upd_same _ _ _ _
  rw [h3]
  rfl

theorem zeroSells_transact (k : Nat) :
    (zeroSells k).transact 2 0 3 = some (zeroSells (k + 1)) := by
  have hq : ((zeroSells k).data 0).get_quantity 3 = 1 := by
    show (zeroSellOrder k).get_quantity 3 = 1
    rw [Order.get_quantity, zeroSellOrder_at3, zeroSellOrder_last]
    cases k <;> simp [zRec]
  have hp : ((zeroSells k).data 0).get_price 3 = 0 := by
    show (zeroSellOrder k).get_price 3 = 0
    rw [Order.get_price, zeroSellOrder_at3, zeroSellOrder_last]
    cases k <;> simp [zRec]
  simp only [OrderMinMaxHeap.transact, zeroSells_search, hq, hp]
  rw [if_neg (by omega)]
  have h1 : (((1 : Nat) : Int) - 0).toNat = 1 := by norm_num
  rw [h1]
  have h2 : (zeroSells k).data 0 = zeroSellOrder k := rfl
  rw [h2, zeroSellOrder_transact k]
  have h3 : upd ((zeroSells k).data) 0 (zeroSellOrder (k + 1)) = (zeroSells (k + 1)).data := by
    show upd (upd (fun _ => Order.default_order) 0 (zeroSellOrder k)) 0 (zeroSellOrder (k + 1)) =
      upd (fun _ => Order.default_order) 0 (zeroSellOrder (k + 1))
    exact upd_upd_same _ _ _ _
  rw [h3]
  rfl

theorem zero_step (k : Nat) :
    (zeroEntryK k).match_step 3 =
      .traded ⟨"AB", 1, .LIMIT, 1, 0, 0, 1, .LIMIT, 2⟩ (zeroEntryK (k + 1)) := by
  have hmax : (zeroBuys k).get_max_order = some (zeroBuyOrder k) := rfl
  have hbst : ((zeroBuyOrder k).get_history_entry (-1)).history ≠ .EXECUTED := by
    rw [zeroBuyOrder_last]
    cases k <;> simp [zRec]
  have hsst : ((zeroSellOrder k).get_history_entry (-1)).history ≠ .EXECUTED := by
    rw [zeroSellOrder_last]
    cases k <;> simp [zRec]
  have hbp : (zeroBuyOrder k).get_price (-1) = 0 := by
    rw [Order.get_price, zeroBuyOrder_last]
    cases k <;> simp [zRec]
  have hsp : (zeroSellOrder k).get_price (-1) = 0 := by
    rw [Order.get_price, zeroSellOrder_last]
    cases k <;> simp [zRec]
  have hbq : (zeroBuyOrder k).get_quantity (-1) = 1 := by
    rw [Order.get_quantity, zeroBuyOrder_last]
    cases k <;> simp [zRec]
  have hsq : (zeroSellOrder k).get_quantity (-1) = 1 := by
    rw [Order.get_quantity, zeroSellOrder_last]
    cases k <;> simp [zRec]
  have hmin : (zeroSells k).get_min_order = zeroSellOrder k := rfl
  simp only [OrderEntry.match_step, zeroEntryK, hmax, hmin]
  rw [if_pos ⟨hbst, hsst, by rw [hbp, hsp]⟩]
  have htb : (zeroBuys k).transact (zeroBuyOrder k).order_id ((zeroBuyOrder k).get_price (-1)) 3
      = some (zeroBuys (k + 1)) := by
    rw [hbp]
    exact zeroBuys_transact k
  have hts : (zeroSells k).transact (zeroSellOrder k).order_id
      ((zeroBuyOrder k).get_price (-1)) 3 = some (zeroSells (k + 1)) := by
    rw [hbp]
    exact zeroSells_transact k
  simp only [htb, hts]
  rw [hbp, hsp, hbq, hsq]
  rfl

/-- The `while (true)` loop of `OrderEntry::match(t)` diverges on a state:
every fuel bound is exhausted without reaching the loop's `break` (or a
crash). -/
def match_diverges (e : OrderEntry) (t : Int) : Prop :=
  ∀ n, OrderEntry.match_run n e t = .fuelOut

/-- C5 (counterexample): on the reachable crossed book of two zero-price
orders — buy(id 1, price 0.00, qty 1, t=1) against sell(id 2, price 0.00,
qty 1, t=2), matched at t=3 — the match loop never terminates: each
iteration deducts the buy *price* 0 from both quantities, changing nothing
the guard reads. -/
theorem claim_C5_counterexample_zero_price_loop : match_diverges exampleZeroEntry 3 := by
  intro n
  rw [zeroEntry_eq]
  suffices h : ∀ n k, OrderEntry.match_run n (zeroEntryK k) 3 = .fuelOut from h n 0
  intro n
  induction n with
  | zero => intro k; rfl
  | succ n ih =>
    intro k
    show OrderEntry.match_run (n + 1) (zeroEntryK k) 3 = .fuelOut
    rw [OrderEntry.match_run]
    simp only [zero_step k]
    rw [ih (k + 1)]

/-! ## Termination of the match loop under positive prices (C5 amended) -/

/-- Total current remaining quantity of the active region. -/
def heapQtySum (h : OrderMinMaxHeap) : Nat :=
  ∑ i in Finset.range h.active, (h.data i).get_quantity (-1)

/-- Well-formedness of a side book for a match at time `t`: allocation
flags exactly mark the active region, the active region precedes the
retained one, every active order has a positive current price, history
dates at most `t`, a nonempty history, and a distinct id. -/
def heapWF (h : OrderMinMaxHeap) (t : Int) : Prop :=
  (∀ i, h.allocated i = decide (i < h.active)) ∧
  h.active ≤ h.matched ∧
  (∀ i, i < h.active → 1 ≤ (h.data i).get_price (-1)) ∧
  (∀ i, i < h.active → ∀ r ∈ (h.data i).history, r.date ≤ t) ∧
  (∀ i, i < h.active → (h.data i).history ≠ []) ∧
  (∀ i j, i < h.active → j < h.active →
    (h.data i).order_id = (h.data j).order_id → i = j)

/-- When a sell book is empty its stale root must be `EXECUTED` so that the
loop's guard stops; the loop's own removals maintain this. -/
def sellStale (h : OrderMinMaxHeap) : Prop :=
  h.active = 0 → ((h.data 0).get_history_entry (-1)).history = .EXECUTED

/-- Invariant of the match loop. -/
def entryInv (e : OrderEntry) (t : Int) : Prop :=
  heapWF e.buys t ∧ heapWF e.sells t ∧ sellStale e.sells

/-- Loop measure: quantities plus head counts of both active regions. -/
def entryMeasure (e : OrderEntry) : Nat :=
  heapQtySum e.buys + e.buys.active + (heapQtySum e.sells + e.sells.active)

theorem qtySum_upd (d : Nat → Order) (n j : Nat) (o : Order) (hj : j < n) :
    (∑ i in Finset.range n, ((upd d j o) i).get_quantity (-1)) + (d j).get_quantity (-1) =
      (∑ i in Finset.range n, (d i).get_quantity (-1)) + o.get_quantity (-1) := by
  have hmem : j ∈ Finset.range n := Finset.mem_range.mpr hj
  have h1 : (∑ i in Finset.range n, ((upd d j o) i).get_quantity (-1)) =
      o.get_quantity (-1) +
        ∑ i in (Finset.range n).erase j, (d i).get_quantity (-1) := by
    rw [← Finset.add_sum_erase _ _ hmem, upd_same]
    congr 1
    exact Finset.sum_congr rfl fun i hi => by
      rw [upd_other _ _ _ (Finset.mem_erase.mp hi).1]
  have h2 : (∑ i in Finset.range n, (d i).get_quantity (-1)) =
      (d j).get_quantity (-1) +
        ∑ i in (Finset.range n).erase j, (d i).get_quantity (-1) := by
    rw [← Finset.add_sum_erase _ _ hmem]
  omega

theorem upd_at_other_point {α : Type} (f : Nat → α) (a b : Nat) (v : α) :
    (upd f a v) b = if b = a then v else f b := rfl

theorem qtySum_swap_data (d : Nat → Order) (n a b : Nat) (ha : a < n) (hb : b < n) :
    (∑ i in Finset.range n, ((upd (upd d a (d b)) b (d a)) i).get_quantity (-1)) =
      ∑ i in Finset.range n, (d i).get_quantity (-1) := by
  have hub : (upd d a (d b)) b = d b := by
    by_cases hba : b = a <;> simp [upd, hba]
  have e1 := qtySum_upd d n a (d b) ha
  have e2 := qtySum_upd (upd d a (d b)) n b (d a) hb
  rw [hub] at e2
  omega

theorem searchGo_found (h : OrderMinMaxHeap) (id_ : Nat) (j : Nat)
    (halloc : ∀ i, h.allocated i = decide (i < h.active))
    (hj : j < h.active) (hje : (h.data j).order_id = id_)
    (huniq : ∀ i, i < h.active → (h.data i).order_id = id_ → i = j) :
    ∀ rem k, rem + k = h.matched → k ≤ j → j < h.matched → searchGo h id_ rem k = some j := by
  intro rem
  induction rem with
  | zero =>
    intro k hsum hk hjm
    omega
  | succ rem ih =>
    intro k hsum hk hjm
    show (if h.allocated k && (h.data k).order_id == id_ then some k
      else searchGo h id_ rem (k + 1)) = some j
    by_cases hkj : k = j
    · subst hkj
      rw [halloc k, decide_eq_true hj, hje]
      simp
    · have hk2 : k < j := by omega
      have hka : h.allocated k = true := by
        rw [halloc k]
        exact decide_eq_true (by omega)
      by_cases hkid : (h.data k).order_id = id_
      · exact absurd (huniq k (by omega) hkid) hkj
      · rw [hka]
        have : ((h.data k).order_id == id_) = false := by
          exact beq_false_of_ne hkid
        rw [this]
        simp only [Bool.and_false, Bool.false_eq_true, if_false]
        exact ih (k + 1) (by omega) (by omega) hjm

theorem search_found (h : OrderMinMaxHeap) (j : Nat)
    (halloc : ∀ i, h.allocated i = decide (i < h.active))
    (hcmp : h.active ≤ h.matched) (hj : j < h.active)
    (huniq : ∀ i, i < h.active → (h.data i).order_id = (h.data j).order_id → i = j) :
    h.search ((h.data j).order_id) = some j :=
  searchGo_found h _ j halloc hj rfl huniq h.matched 0 (by omega) (by omega) (by omega)

theorem get_max_order_some (h : OrderMinMaxHeap) (o : Order)
    (hmax : h.get_max_order = some o) :
    ∃ j, j < 3 ∧ h.allocated j = true ∧ o = h.data j := by
  unfold OrderMinMaxHeap.get_max_order at hmax
  by_cases h0 : h.allocated 0
  · rw [if_neg (by simp [h0])] at hmax
    by_cases hc2 : (!h.allocated 1 || (h.has_precedence 0 1 (-1) &&
        (!h.allocated 2 || h.has_precedence 0 2 (-1)))) = true
    · rw [if_pos hc2] at hmax
      exact ⟨0, by omega, h0, (Option.some.inj hmax).symm⟩
    · rw [if_neg hc2] at hmax
      have h1 : h.allocated 1 = true := by
        cases ha : h.allocated 1
        · exact absurd (by rw [ha]; simp) hc2
        · rfl
      by_cases hc3 : (!h.allocated 2 || h.has_precedence 1 2 (-1)) = true
      · rw [if_pos hc3] at hmax
        exact ⟨1, by omega, h1, (Option.some.inj hmax).symm⟩
      · rw [if_neg hc3] at hmax
        have h2 : h.allocated 2 = true := by
          cases ha : h.allocated 2
          · exact absurd (by rw [ha]; simp) hc3
          · rfl
        exact ⟨2, by omega, h2, (Option.some.inj hmax).symm⟩
  · rw [if_pos (by simp [h0])] at hmax
    exact Option.noConfusion hmax

theorem Order.transact_eq (o : Order) (t p : Int) (q' : Nat)
    (hle : (o.history.getLastD ⟨.NOT_EXECUTED, 0, 0, 0⟩).date ≤ t) :
    o.transact t p q' = { o with history := o.history ++
      [⟨if q' = 0 then .EXECUTED else .PARTIALLY_EXECUTED, t, p, q'⟩] } := by
  unfold Order.transact
  exact Order.add_execution_history_entry_append o _ t p q' hle

theorem Order.append_record_last (o : Order) (e : alteration_history_t) :
    ({ o with history := o.history ++ [e] } : Order).get_history_entry (-1) = e := by
  rw [Order.get_history_entry_neg_one]
  exact List.getLastD_concat _ _ _

theorem getLastD_date_le (o : Order) (t : Int) (hne : o.history ≠ [])
    (hall : ∀ r ∈ o.history, r.date ≤ t) :
    (o.history.getLastD ⟨.NOT_EXECUTED, 0, 0, 0⟩).date ≤ t := by
  obtain ⟨x, rest, hx⟩ : ∃ x rest, o.history = x :: rest := by
    cases hh : o.history with
    | nil => exact absurd hh hne
    | cons x rest => exact ⟨x, rest, rfl⟩
  rw [hx]
  exact hall _ (by rw [hx]; exact getLastD_cons_mem rest x _)

theorem transact_progress (h : OrderMinMaxHeap) (t : Int) (j : Nat) (ded : Int)
    (hwf : heapWF h t) (hj : j < h.active) (hded : 1 ≤ ded) :
    ∃ h1, h.transact ((h.data j).order_id) ded t = some h1 ∧
      heapWF h1 t ∧ h1.matched = h.matched ∧
      heapQtySum h1 + h1.active + 1 ≤ heapQtySum h + h.active ∧
      (h1.active = 0 → ((h1.data 0).get_history_entry (-1)).history = .EXECUTED) := by
  obtain ⟨halloc, hcmp, hprice, hdates, hnonempty, huniq⟩ := hwf
  have hsearch : h.search ((h.data j).order_id) = some j :=
    search_found h j halloc hcmp hj (fun i hi hid => huniq i j hi hj hid)
  have hdj := hdates j hj
  have hnej := hnonempty j hj
  have hgheq : (h.data j).get_history_entry t = (h.data j).get_history_entry (-1) :=
    Order.get_history_entry_all_le _ t hdj
  have hlastle : ((h.data j).history.getLastD ⟨.NOT_EXECUTED, 0, 0, 0⟩).date ≤ t :=
    getLastD_date_le _ t hnej hdj
  have hact1 : 1 ≤ h.active := by omega
  have htr : h.transact ((h.data j).order_id) ded t =
      if ((h.data j).get_quantity t : Int) - ded ≤ 0 then
        some (({ h with data := upd h.data j ((h.data j).transact t ((h.data j).get_price t) 0) }).make_inactive j)
      else
        some { h with data := upd h.data j ((h.data j).transact t ((h.data j).get_price t) (((h.data j).get_quantity t : Int) - ded).toNat) } := by
    unfold OrderMinMaxHeap.transact
    rw [hsearch]
  by_cases hcase : ((h.data j).get_quantity t : Int) - ded ≤ 0
  · -- the order fills fully and is removed from the active region
    rw [if_pos hcase] at htr
    have ho1e : (h.data j).transact t ((h.data j).get_price t) 0 =
        Order.mk (h.data j).order_id (h.data j).order_type
          ((h.data j).history ++ [⟨.EXECUTED, t, (h.data j).get_price t, 0⟩]) := by
      rw [Order.transact_eq _ _ _ _ hlastle]
      simp
    set o1 := (h.data j).transact t ((h.data j).get_price t) 0 with ho1
    set act := h.active with hactdef
    set d2 := upd h.data j o1 with hd2
    set d3 := upd (upd d2 j (d2 (act - 1))) (act - 1) (d2 j) with hd3
    set a4 := upd h.allocated (act - 1) false with ha4
    have hmk : ({ h with data := d2 } : OrderMinMaxHeap).make_inactive j =
        { h with data := d3, allocated := a4, active := act - 1 } := by
      unfold OrderMinMaxHeap.make_inactive OrderMinMaxHeap.swap
      rw [push_down_eq]
    have ho1q : o1.get_quantity (-1) = 0 := by
      rw [Order.get_quantity, Order.get_history_entry_neg_one, ho1e]
      simp [List.getLastD_concat]
    have ho1st : (o1.get_history_entry (-1)).history = .EXECUTED := by
      rw [Order.get_history_entry_neg_one, ho1e]
      simp [List.getLastD_concat]
    have hdfact : ∀ i, i < act - 1 → d3 i = h.data (if i = j then act - 1 else i) := by
      intro i hi
      by_cases hij : i = j
      · subst hij
        have hine : i ≠ act - 1 := by omega
        have hjne : act - 1 ≠ i := by omega
        rw [hd3, upd_other _ _ _ hine, upd_same, hd2, upd_other _ _ _ hjne, if_pos rfl]
      · have hine : i ≠ act - 1 := by omega
        rw [hd3, upd_other _ _ _ hine, upd_other _ _ _ hij, hd2,
          upd_other _ _ _ hij, if_neg hij]
    have hd3last : d3 (act - 1) = o1 := by
      rw [hd3, upd_same, hd2, upd_same]
    refine ⟨_, htr, ?_, by rw [hmk], ?_, ?_⟩
    · -- well-formedness of the shrunk heap
      rw [hmk]
      refine ⟨?_, ?_, ?_, ?_, ?_, ?_⟩
      · intro i
        show a4 i = decide (i < act - 1)
        by_cases hie : i = act - 1
        · subst hie
          rw [ha4, upd_same]
          simp
        · rw [ha4, upd_other _ _ _ hie, halloc i]
          exact decide_eq_decide.mpr (by omega)
      · show act - 1 ≤ h.matched
        omega
      · intro i hi
        have hi2 : i < act - 1 := hi
        show 1 ≤ (d3 i).get_price (-1)
        rw [hdfact i hi2]
        by_cases hij : i = j
        · rw [if_pos hij]
          exact hprice (act - 1) (by omega)
        · rw [if_neg hij]
          exact hprice i (by omega)
      · intro i hi
        have hi2 : i < act - 1 := hi
        show ∀ r ∈ (d3 i).history, r.date ≤ t
        rw [hdfact i hi2]
        by_cases hij : i = j
        · rw [if_pos hij]
          exact hdates (act - 1) (by omega)
        · rw [if_neg hij]
          exact hdates i (by omega)
      · intro i hi
        have hi2 : i < act - 1 := hi
        show (d3 i).history ≠ []
        rw [hdfact i hi2]
        by_cases hij : i = j
        · rw [if_pos hij]
          exact hnonempty (act - 1) (by omega)
        · rw [if_neg hij]
          exact hnonempty i (by omega)
      · intro i i2 hi hi2 hid
        have hib : i < act - 1 := hi
        have hib2 : i2 < act - 1 := hi2
        have hid2 : (d3 i).order_id = (d3 i2).order_id := hid
        rw [hdfact i hib, hdfact i2 hib2] at hid2
        have hb1 : (if i = j then act - 1 else i) < act := by
          by_cases hij : i = j
          · rw [if_pos hij]; omega
          · rw [if_neg hij]; omega
        have hb2 : (if i2 = j then act - 1 else i2) < act := by
          by_cases hij : i2 = j
          · rw [if_pos hij]; omega
          · rw [if_neg hij]; omega
        have heq := huniq _ _ hb1 hb2 hid2
        by_cases hij : i = j
        · by_cases hij2 : i2 = j
          · omega
          · rw [if_pos hij, if_neg hij2] at heq
            omega
        · by_cases hij2 : i2 = j
          · rw [if_neg hij, if_pos hij2] at heq
            omega
          · rw [if_neg hij, if_neg hij2] at heq
            omega
    · -- the measure strictly decreases
      rw [hmk]
      have e1 : (∑ i in Finset.range act, (d2 i).get_quantity (-1)) +
          (h.data j).get_quantity (-1) =
          (∑ i in Finset.range act, (h.data i).get_quantity (-1)) + o1.get_quantity (-1) := by
        rw [hd2]
        exact qtySum_upd h.data act j o1 hj
      have e2 : (∑ i in Finset.range act, (d3 i).get_quantity (-1)) =
          ∑ i in Finset.range act, (d2 i).get_quantity (-1) := by
        rw [hd3, hd2]
        exact qtySum_swap_data (upd h.data j o1) act j (act - 1) hj (by omega)
      have e3 : (∑ i in Finset.range act, (d3 i).get_quantity (-1)) =
          (∑ i in Finset.range (act - 1), (d3 i).get_quantity (-1)) +
            (d3 (act - 1)).get_quantity (-1) := by
        conv_lhs => rw [show act = act - 1 + 1 from by omega]
        rw [Finset.sum_range_succ]
      have e4 : (d3 (act - 1)).get_quantity (-1) = 0 := by
        rw [hd3last]
        exact ho1q
      have h1sum : heapQtySum { h with data := d3, allocated := a4, active := act - 1 } =
          ∑ i in Finset.range (act - 1), (d3 i).get_quantity (-1) := rfl
      have hsum0 : heapQtySum h = ∑ i in Finset.range act, (h.data i).get_quantity (-1) := rfl
      show heapQtySum { h with data := d3, allocated := a4, active := act - 1 } +
        ({ h with data := d3, allocated := a4, active := act - 1 } :
          OrderMinMaxHeap).active + 1 ≤ heapQtySum h + h.active
      rw [h1sum, hsum0]
      show (∑ i in Finset.range (act - 1), (d3 i).get_quantity (-1)) + (act - 1) + 1 ≤
        (∑ i in Finset.range act, (h.data i).get_quantity (-1)) + h.active
      omega
    · -- an emptied book keeps an EXECUTED stale root
      rw [hmk]
      intro h0
      have h00 : act - 1 = 0 := h0
      show ((d3 0).get_history_entry (-1)).history = .EXECUTED
      rw [← h00, hd3last]
      exact ho1st
  · -- partial fill: the quantity strictly decreases on the touched order
    rw [if_neg hcase] at htr
    set q := (h.data j).get_quantity (-1) with hqdef
    have hqt : (h.data j).get_quantity t = q := by
      rw [Order.get_quantity, hgheq, hqdef]
      rfl
    set newq := (((h.data j).get_quantity t : Int) - ded).toNat with hnewq
    have hnum : newq + ded.toNat = q ∧ 1 ≤ ded.toNat := by
      rw [hnewq, hqt]
      omega
    have ho1e : (h.data j).transact t ((h.data j).get_price t) newq =
        Order.mk (h.data j).order_id (h.data j).order_type
          ((h.data j).history ++ [⟨if newq = 0 then .EXECUTED else .PARTIALLY_EXECUTED, t,
            (h.data j).get_price t, newq⟩]) := by
      rw [Order.transact_eq _ _ _ _ hlastle]
    set o1 := (h.data j).transact t ((h.data j).get_price t) newq with ho1
    have ho1q : o1.get_quantity (-1) = newq := by
      rw [Order.get_quantity, Order.get_history_entry_neg_one, ho1e]
      simp [List.getLastD_concat]
    have ho1p : o1.get_price (-1) = (h.data j).get_price t := by
      rw [Order.get_price, Order.get_history_entry_neg_one, ho1e]
      simp [List.getLastD_concat]
    have ho1id : o1.order_id = (h.data j).order_id := by
      rw [ho1e]
    refine ⟨_, htr, ?_, rfl, ?_, ?_⟩
    · refine ⟨halloc, hcmp, ?_, ?_, ?_, ?_⟩
      · intro i hi
        have hi2 : i < h.active := hi
        show 1 ≤ ((upd h.data j o1) i).get_price (-1)
        by_cases hij : i = j
        · subst hij
          rw [upd_same, ho1p]
          have : (h.data i).get_price t = (h.data i).get_price (-1) := by
            rw [Order.get_price, hgheq]
            rfl
          rw [this]
          exact hprice i hi2
        · rw [upd_other _ _ _ hij]
          exact hprice i hi2
      · intro i hi
        have hi2 : i < h.active := hi
        show ∀ r ∈ ((upd h.data j o1) i).history, r.date ≤ t
        by_cases hij : i = j
        · subst hij
          rw [upd_same, ho1e]
          intro r hr
          rcases List.mem_append.mp hr with hr2 | hr2
          · exact hdates i hi2 r hr2
          · rw [List.mem_singleton.mp hr2]
        · rw [upd_other _ _ _ hij]
          exact hdates i hi2
      · intro i hi
        have hi2 : i < h.active := hi
        show ((upd h.data j o1) i).history ≠ []
        by_cases hij : i = j
        · subst hij
          rw [upd_same, ho1e]
          simp
        · rw [upd_other _ _ _ hij]
          exact hnonempty i hi2
      · intro i i2 hi hi2 hid
        have hib : i < h.active := hi
        have hib2 : i2 < h.active := hi2
        have hideq : ∀ k, ((upd h.data j o1) k).order_id = (h.data k).order_id := by
          intro k
          by_cases hkj : k = j
          · subst hkj
            rw [upd_same, ho1id]
          · rw [upd_other _ _ _ hkj]
        have hid2 : ((upd h.data j o1) i).order_id = ((upd h.data j o1) i2).order_id := hid
        rw [hideq i, hideq i2] at hid2
        exact huniq i i2 hib hib2 hid2
    · have e1 : (∑ i in Finset.range h.active, ((upd h.data j o1) i).get_quantity (-1)) +
          (h.data j).get_quantity (-1) =
          (∑ i in Finset.range h.active, (h.data i).get_quantity (-1)) +
            o1.get_quantity (-1) := qtySum_upd h.data h.active j o1 hj
      rw [ho1q] at e1
      show heapQtySum { h with data := upd h.data j o1 } +
        ({ h with data := upd h.data j o1 } : OrderMinMaxHeap).active + 1 ≤
        heapQtySum h + h.active
      have h1sum : heapQtySum { h with data := upd h.data j o1 } =
          ∑ i in Finset.range h.active, ((upd h.data j o1) i).get_quantity (-1) := rfl
      have hsum0 : heapQtySum h =
          ∑ i in Finset.range h.active, (h.data i).get_quantity (-1) := rfl
      rw [h1sum, hsum0]
      show (∑ i in Finset.range h.active, ((upd h.data j o1) i).get_quantity (-1)) +
        h.active + 1 ≤ (∑ i in Finset.range h.active, (h.data i).get_quantity (-1)) + h.active
      omega
    · intro h0
      have : h.active = 0 := h0
      omega

theorem match_step_eq_of_max (e : OrderEntry) (t : Int) (bb : Order)
    (hmax : e.buys.get_max_order = some bb) :
    e.match_step t =
      (if (bb.get_history_entry (-1)).history ≠ .EXECUTED ∧
          ((e.sells.get_min_order).get_history_entry (-1)).history ≠ .EXECUTED ∧
          (e.sells.get_min_order).get_price (-1) ≤ bb.get_price (-1) then
        match e.buys.transact bb.order_id (bb.get_price (-1)) t with
        | none => MatchStepResult.oob
        | some bh =>
          match e.sells.transact ((e.sells.get_min_order).order_id) (bb.get_price (-1)) t with
          | none => MatchStepResult.oob
          | some sh =>
            MatchStepResult.traded
              ⟨e.symbol, bb.order_id, bb.order_type, bb.get_quantity (-1), bb.get_price (-1),
                (e.sells.get_min_order).get_price (-1), (e.sells.get_min_order).get_quantity (-1),
                (e.sells.get_min_order).order_type, (e.sells.get_min_order).order_id⟩
              { e with buys := bh, sells := sh }
      else MatchStepResult.halt) := by
  unfold OrderEntry.match_step
  rw [hmax]

theorem match_step_progress (e : OrderEntry) (t : Int) (hInv : entryInv e t) :
    e.match_step t = .halt ∨
      ∃ row e1, e.match_step t = .traded row e1 ∧ entryInv e1 t ∧
        entryMeasure e1 < entryMeasure e := by
  obtain ⟨hwb, hws, hstale⟩ := hInv
  cases hmax : e.buys.get_max_order with
  | none =>
    left
    unfold OrderEntry.match_step
    rw [hmax]
  | some bb =>
    obtain ⟨jb, hjb3, hjballoc, hbeq⟩ := get_max_order_some e.buys bb hmax
    subst hbeq
    have hjbact : jb < e.buys.active := by
      have h2 := hwb.1 jb
      rw [hjballoc] at h2
      exact of_decide_eq_true h2.symm
    rw [match_step_eq_of_max e t (e.buys.data jb) hmax]
    by_cases hguard : (((e.buys.data jb).get_history_entry (-1)).history ≠ .EXECUTED ∧
        ((e.sells.get_min_order).get_history_entry (-1)).history ≠ .EXECUTED ∧
        (e.sells.get_min_order).get_price (-1) ≤ (e.buys.data jb).get_price (-1))
    · right
      have hsact : 1 ≤ e.sells.active := by
        by_contra hs0
        have h0 : e.sells.active = 0 := by omega
        exact hguard.2.1 (hstale h0)
      have hbp : 1 ≤ (e.buys.data jb).get_price (-1) := hwb.2.2.1 jb hjbact
      obtain ⟨hb1, htb, hwb1, hmb1, hsb1, _⟩ :=
        transact_progress e.buys t jb ((e.buys.data jb).get_price (-1)) hwb hjbact hbp
      obtain ⟨hs1, hts, hws1, hms1, hss1, hstale1⟩ :=
        transact_progress e.sells t 0 ((e.buys.data jb).get_price (-1)) hws
          (by omega) hbp
      rw [if_pos hguard]
      have hminid : (e.sells.get_min_order).order_id = (e.sells.data 0).order_id := rfl
      rw [hminid, htb, hts]
      refine ⟨_, { e with buys := hb1, sells := hs1 }, rfl, ⟨hwb1, hws1, hstale1⟩, ?_⟩
      show heapQtySum hb1 + hb1.active + (heapQtySum hs1 + hs1.active) <
        heapQtySum e.buys + e.buys.active + (heapQtySum e.sells + e.sells.active)
      omega
    · left
      rw [if_neg hguard]

/-- C5 (amended): for every book state whose two side heaps are well formed
for the match time `t` — allocation marking exactly the active regions,
distinct ids, positive current prices, history dates at most `t` — and
whose sell book, if empty, was emptied by the loop itself (EXECUTED stale
root), the matching loop of `SymbolBook.match(t)` terminates: any fuel
beyond the total active quantity plus the active order count of both sides
reaches the loop's `break`. Without the positive-price condition the loop
need not terminate (see the zero-price counterexample). -/
theorem claim_C5_match_terminates_on_positive_prices :
    ∀ (n : Nat) (e : OrderEntry) (t : Int), entryInv e t → entryMeasure e < n →
      (OrderEntry.match_run n e t).isFinished = true := by
  intro n
  induction n with
  | zero =>
    intro e t _ hm
    omega
  | succ n ih =>
    intro e t hInv hm
    rcases match_step_progress e t hInv with hstep | ⟨row, e1, hstep, hInv1, hlt⟩
    · show (OrderEntry.match_run (n + 1) e t).isFinished = true
      rw [OrderEntry.match_run, hstep]
      rfl
    · show (OrderEntry.match_run (n + 1) e t).isFinished = true
      rw [OrderEntry.match_run, hstep]
      show (match OrderEntry.match_run n e1 t with
        | MatchResult.finished rows e2 => MatchResult.finished (row :: rows) e2
        | r => r).isFinished = true
      have hfin := ih e1 t hInv1 (by omega)
      cases hr : OrderEntry.match_run n e1 t with
      | finished rows e2 => rfl
      | oob =>
        rw [hr] at hfin
        exact absurd hfin (by simp [MatchResult.isFinished])
      | fuelOut =>
        rw [hr] at hfin
        exact absurd hfin (by simp [MatchResult.isFinished])

/-- A hand-built well-formed buy book: order 1, price 2, qty 3, t = 1. -/
def examplePosBuys : OrderMinMaxHeap :=
  ⟨upd (fun _ => Order.default_order) 0 (Order.create 1 .LIMIT 1 2 3),
    fun i => decide (i < 1), 1, 1, .BUY_HEAP⟩

/-- A hand-built well-formed sell book: order 2, price 1, qty 2, t = 2. -/
def examplePosSells : OrderMinMaxHeap :=
  ⟨upd (fun _ => Order.default_order) 0 (Order.create 2 .LIMIT 2 1 2),
    fun i => decide (i < 1), 1, 1, .SELL_HEAP⟩

/-- A crossed book with positive prices. -/
def examplePosEntry : OrderEntry :=
  ⟨"AB", examplePosBuys, examplePosSells⟩

/-- C5 witness: the positive-price crossed book terminates within the
measure bound 3 + 1 + 2 + 1 = 7 < 8. -/
theorem claim_C5_witness :
    (OrderEntry.match_run 8 examplePosEntry 3).isFinished = true :=
  claim_C5_match_terminates_on_positive_prices 8 examplePosEntry 3
    ⟨⟨fun _ => rfl, by decide,
      fun i hi => by have h1 : i < 1 := hi; interval_cases i; decide,
      fun i hi => by have h1 : i < 1 := hi; interval_cases i; decide,
      fun i hi => by have h1 : i < 1 := hi; interval_cases i; decide,
      fun i j hi hj _ => by
        have h1 : i < 1 := hi
        have h2 : j < 1 := hj
        omega⟩,
     ⟨fun _ => rfl, by decide,
      fun i hi => by have h1 : i < 1 := hi; interval_cases i; decide,
      fun i hi => by have h1 : i < 1 := hi; interval_cases i; decide,
      fun i hi => by have h1 : i < 1 := hi; interval_cases i; decide,
      fun i j hi hj _ => by
        have h1 : i < 1 := hi
        have h2 : j < 1 := hj
        omega⟩,
     fun h0 => absurd h0 (by decide)⟩
    (by decide)
